import Mathlib

/-!
Shallow embedding of the hybrid retrieval and citation-constrained answering
engine of the slack-rag-api repository.

Conventions of the embedding:
* JavaScript numbers are modelled as exact rationals (`ℚ`); array indices,
  rank positions and the RRF constant `k` are natural numbers.
* The two external generation calls inside `generateAnswerWithCitations`
  (the relevance check and the answer synthesis) are modelled by passing the
  text each call returns as an explicit parameter (`relevanceCheck`,
  `rawAnswer`); the prompts only feed those external calls, so they do not
  appear in the model.
* The JavaScript regex `\[(\d+)\]` (used with `String.replace` and repeated
  `exec`) is modelled by a left-to-right scanner over `List Char`: at each
  position a match is an opening bracket, a maximal nonempty digit run, and a
  closing bracket; scanning resumes after the match.  The scanner recursion
  uses an explicit fuel argument (initialised to the text length, an upper
  bound since every step consumes at least one character) so that it is
  structural and kernel-computable.
* `Array.prototype.sort` (stable per the ECMAScript specification) is
  modelled by `List.insertionSort`, which is a stable sort; for a total
  preorder comparator the stable sorted permutation is unique, so this is
  the sort the source computes.
* `JS Map` iteration order (insertion order, with `set` on an existing key
  keeping its position) is modelled by an association list with `mapSet` /
  `mapGet`.
-/

/-- `SearchResult` from src/lib/retrieval/search.ts.  The `metadata` JSON
field is abstracted to an optional string and `Date` to an integer epoch
value; neither is inspected by the code under verification. -/
structure SearchResult where
  id : Nat
  content : String
  source_type : String
  source_id : String
  channel_id : Option String
  author : Option String
  timestamp : Option Int
  permalink : Option String
  is_source_of_truth : Bool
  is_customer_safe : Bool
  metadata : Option String
  similarity : ℚ
deriving Repr, DecidableEq

/-- `Citation` from src/lib/ai/answering.ts. -/
structure Citation where
  source_id : String
  content : String
  author : Option String
  timestamp : Option Int
  permalink : Option String
  is_customer_safe : Bool
deriving Repr, DecidableEq

/-- The `mode` union type `'internal' | 'customer'`. -/
inductive Mode where
  | internal
  | customer
deriving Repr, DecidableEq

/-- `AnswerWithCitations` from src/lib/ai/answering.ts. -/
structure AnswerWithCitations where
  answer : String
  citations : List Citation
  mode : Mode
  canCiteForCustomer : Bool
deriving Repr, DecidableEq

/-- The fixed message returned when there are no search results at all
(answering.ts lines 44-50). -/
def insufficientInfoMessage : String :=
  "I don't have enough information in the knowledge base to answer this question. Please try rephrasing your question or check if the information has been added to the system."

/-- The fixed message returned in customer mode when no customer-safe
sources survive the visibility filter (answering.ts lines 62-68). -/
def internalOnlyMessage : String :=
  "I found some information, but it's marked as internal-only and cannot be shared with customers. Please consider creating an approved knowledge article or contact the internal team for this information."

/-- The fixed message returned when the relevance pre-check judges the
context irrelevant (answering.ts lines 98-103). -/
def notRelevantMessage : String :=
  "I don't have enough information in the knowledge base to answer this question."

/-- `parseInt(num, 10)` on a nonempty digit string. -/
def digitsToNat (ds : List Char) : Nat :=
  ds.foldl (fun acc c => 10 * acc + (c.toNat - '0'.toNat)) 0

/-- One attempted match of the regex `\[(\d+)\]` at the head of the text:
an opening bracket, a maximal nonempty digit run `ds`, and a closing
bracket.  Returns the parsed number, the digit run, and the remaining text
after the match. -/
def checkCiteAt : List Char → Option (Nat × List Char × List Char)
  | [] => none
  | c :: rest =>
    if c = '[' then
      let ds := rest.takeWhile Char.isDigit
      let after := rest.dropWhile Char.isDigit
      if after.head? = some ']' then
        if ds.isEmpty then none else some (digitsToNat ds, ds, after.tail)
      else none
    else none

/-- Left-to-right scan collecting the numbers of all citation tokens, as the
repeated `citationRegex.exec` loop does (answering.ts lines 172-181).  The
fuel is an upper bound on the number of steps; it is initialised to the text
length by `citeNumbers`. -/
def citeAux : Nat → List Char → List Nat
  | _, [] => []
  | 0, _ :: _ => []
  | fuel + 1, c :: cs =>
    match checkCiteAt (c :: cs) with
    | some (n, _, rest) => n :: citeAux fuel rest
    | none => citeAux fuel cs

/-- The citation numbers appearing in a text, in order of appearance. -/
def citeNumbers (l : List Char) : List Nat :=
  citeAux l.length l

/-- Left-to-right scan rebuilding the text while keeping only the citation
tokens accepted by `keep`, as `text.replace(/\[(\d+)\]/g, cb)` does where
`cb` returns either the match itself or the empty string. -/
def cleanAux (keep : Nat → Bool) : Nat → List Char → List Char
  | _, [] => []
  | 0, l => l
  | fuel + 1, c :: cs =>
    match checkCiteAt (c :: cs) with
    | some (n, ds, rest) =>
      (if keep n then '[' :: (ds ++ [']']) else []) ++ cleanAux keep fuel rest
    | none => c :: cleanAux keep fuel cs

/-- `cleanInvalidCitations` from answering.ts lines 21-35: if
`maxValidCitation == 0` every citation token found is removed, otherwise a
token is removed exactly when its number is greater than
`maxValidCitation`. -/
def cleanInvalidCitations (text : String) (maxValidCitation : Nat) : String :=
  if maxValidCitation == 0 then
    ⟨cleanAux (fun _ => false) text.data.length text.data⟩
  else
    ⟨cleanAux (fun citationNum => !(decide (citationNum > maxValidCitation)))
      text.data.length text.data⟩

/-- The `usedCitationIndices` set of answering.ts lines 172-181: the loop
over regex matches adds `citationIndex - 1` when
`0 < citationIndex ≤ n`; a JS `Set` keeps insertion order and drops
duplicates. -/
def usedCitationIndices (cleaned : List Char) (n : Nat) : List Nat :=
  (citeNumbers cleaned).foldl
    (fun acc citationIndex =>
      if 0 < citationIndex ∧ citationIndex ≤ n then
        if acc.contains (citationIndex - 1) then acc else acc ++ [citationIndex - 1]
      else acc)
    []

/-- The projection from a search result to a `Citation`
(answering.ts lines 188-195). -/
def toCitation (result : SearchResult) : Citation :=
  { source_id := result.source_id
    content := result.content
    author := result.author
    timestamp := result.timestamp
    permalink := result.permalink
    is_customer_safe := result.is_customer_safe }

/-- JavaScript `String.prototype.trim`: strip leading and trailing
whitespace. -/
def trimChars (l : List Char) : List Char :=
  ((l.dropWhile Char.isWhitespace).reverse.dropWhile Char.isWhitespace).reverse

/-- String wrapper for `trimChars`. -/
def jsTrim (s : String) : String :=
  ⟨trimChars s.data⟩

/-- JavaScript `String.prototype.toUpperCase` (ASCII behaviour). -/
def jsToUpper (s : String) : String :=
  ⟨s.data.map Char.toUpper⟩

/-- `relevanceCheck.trim().toUpperCase().includes('YES')`
(answering.ts line 95). -/
def isRelevantResponse (relevanceCheck : String) : Bool :=
  decide ("YES".data <:+: (jsToUpper (jsTrim relevanceCheck)).data)

/-- The mode-dependent restriction of the supplied results
(answering.ts lines 54-55): customer mode keeps only customer-safe entries,
internal mode keeps everything. -/
def relevantFor (searchResults : List SearchResult) (mode : Mode) : List SearchResult :=
  if mode == Mode.customer then searchResults.filter (fun r => r.is_customer_safe)
  else searchResults

/-- The citation-list construction of answering.ts lines 172-195 applied to
the cleaned answer text: the distinct in-range citation numbers found in the
text, shifted to 0-based indices, sorted ascending by `(a, b) => a - b`, and
mapped to the evidence entries (dropping any out-of-bounds lookup). -/
def buildCitations (relevantResults : List SearchResult) (cleaned : List Char) :
    List Citation :=
  (List.insertionSort (fun a b => a ≤ b)
      (usedCitationIndices cleaned relevantResults.length)).filterMap
    (fun index => (relevantResults.get? index).map toCitation)

/-- `generateAnswerWithCitations` from answering.ts lines 37-203.  The texts
returned by the two external generation calls are the parameters
`relevanceCheck` and `rawAnswer`; every other step is the source logic. -/
def generateAnswerWithCitations (query : String) (searchResults : List SearchResult)
    (mode : Mode) (relevanceCheck : String) (rawAnswer : String) : AnswerWithCitations :=
  if searchResults.length == 0 then
    { answer := insufficientInfoMessage
      citations := []
      mode := mode
      canCiteForCustomer := false }
  else
    let relevantResults := relevantFor searchResults mode
    let hasCustomerSafeSources := searchResults.any (fun r => r.is_customer_safe)
    if mode == Mode.customer && relevantResults.length == 0 then
      { answer := internalOnlyMessage
        citations := []
        mode := mode
        canCiteForCustomer := false }
    else if !(isRelevantResponse relevanceCheck) then
      { answer := notRelevantMessage
        citations := []
        mode := mode
        canCiteForCustomer := false }
    else
      let cleanedAnswer := cleanInvalidCitations rawAnswer relevantResults.length
      { answer := jsTrim cleanedAnswer
        citations := buildCitations relevantResults cleanedAnswer.data
        mode := mode
        canCiteForCustomer := if mode == Mode.customer then hasCustomerSafeSources else true }

/-- The four mutually exclusive return paths of
`generateAnswerWithCitations`. -/
inductive AnswerOutcome where
  | emptyEvidence
  | policyBlocked
  | notRelevant
  | generated
deriving Repr, DecidableEq

/-- Which return path of `generateAnswerWithCitations` fires; the
conditions mirror the source branches one by one. -/
def answerBranch (searchResults : List SearchResult) (mode : Mode)
    (relevanceCheck : String) : AnswerOutcome :=
  if searchResults.length == 0 then AnswerOutcome.emptyEvidence
  else
    let relevantResults := relevantFor searchResults mode
    if mode == Mode.customer && relevantResults.length == 0 then AnswerOutcome.policyBlocked
    else if !(isRelevantResponse relevanceCheck) then AnswerOutcome.notRelevant
    else AnswerOutcome.generated

/-- The per-rank reciprocal rank fusion contribution `1 / (k + index + 1)`
(hybridSearch.ts lines 20 and 29). -/
def rrfScore (k index : Nat) : ℚ :=
  1 / ((k : ℚ) + (index : ℚ) + 1)

/-- One value of the `scoresMap` of `reciprocalRankFusion`: the candidate
(with its `similarity` kept equal to the accumulated score) and the
accumulated score. -/
structure FusedEntry where
  result : SearchResult
  score : ℚ
deriving Repr, DecidableEq

/-- `Map.get` on an insertion-ordered association list. -/
def mapGet (m : List (Nat × FusedEntry)) (key : Nat) : Option FusedEntry :=
  (m.find? (fun p => p.1 == key)).map (fun p => p.2)

/-- `Map.set` on an insertion-ordered association list: setting an existing
key overwrites its value in place, a new key is appended. -/
def mapSet (m : List (Nat × FusedEntry)) (key : Nat) (v : FusedEntry) :
    List (Nat × FusedEntry) :=
  if m.any (fun p => p.1 == key) then
    m.map (fun p => if p.1 == key then (key, v) else p)
  else
    m ++ [(key, v)]

/-- The first `forEach` loop of `reciprocalRankFusion` (hybridSearch.ts
lines 19-25): each vector result at 0-based position `i` is written into the
map with score `rrfScore k i`; `i` is the running index. -/
def addVectorFrom (k : Nat) : List (Nat × FusedEntry) → Nat → List SearchResult →
    List (Nat × FusedEntry)
  | m, _, [] => m
  | m, i, r :: rs =>
    addVectorFrom k
      (mapSet m r.id { result := { r with similarity := rrfScore k i }, score := rrfScore k i })
      (i + 1) rs

/-- The body of the second `forEach` loop of `reciprocalRankFusion`
(hybridSearch.ts lines 28-41): a keyword result whose id is already present
accumulates its contribution onto the existing entry, otherwise it is added
fresh. -/
def keywordStep (k : Nat) (m : List (Nat × FusedEntry)) (i : Nat) (r : SearchResult) :
    List (Nat × FusedEntry) :=
  match mapGet m r.id with
  | some existing =>
    mapSet m r.id
      { result := { existing.result with similarity := existing.score + rrfScore k i }
        score := existing.score + rrfScore k i }
  | none =>
    mapSet m r.id { result := { r with similarity := rrfScore k i }, score := rrfScore k i }

/-- The second `forEach` loop itself, folding `keywordStep` over the keyword
results with their running index. -/
def addKeywordFrom (k : Nat) : List (Nat × FusedEntry) → Nat → List SearchResult →
    List (Nat × FusedEntry)
  | m, _, [] => m
  | m, i, r :: rs => addKeywordFrom k (keywordStep k m i r) (i + 1) rs

/-- The fully populated `scoresMap`, in insertion order: vector results
first, then the keyword results not already present. -/
def rrfMerged (vectorResults keywordResults : List SearchResult) (k : Nat) :
    List (Nat × FusedEntry) :=
  addKeywordFrom k (addVectorFrom k [] 0 vectorResults) 0 keywordResults

/-- The comparator `(a, b) => b.score - a.score` as an ordering relation:
`a` may come before `b` iff `b.score ≤ a.score`. -/
def entryGe (a b : FusedEntry) : Prop :=
  b.score ≤ a.score

instance : DecidableRel entryGe :=
  fun a b => inferInstanceAs (Decidable (b.score ≤ a.score))

instance : IsTotal FusedEntry entryGe :=
  ⟨fun a b => le_total b.score a.score⟩

instance : IsTrans FusedEntry entryGe :=
  ⟨fun _ _ _ h1 h2 => le_trans h2 h1⟩

/-- `Array.from(scoresMap.values()).sort((a, b) => b.score - a.score)`
(hybridSearch.ts line 44): the map values in insertion order, stably sorted
by descending score. -/
def rrfSorted (vectorResults keywordResults : List SearchResult) (k : Nat) :
    List FusedEntry :=
  List.insertionSort entryGe ((rrfMerged vectorResults keywordResults k).map (fun p => p.2))

/-- `reciprocalRankFusion` from hybridSearch.ts lines 11-52; the final step
(lines 46-51) divides every similarity by `sorted[0]?.score || 1` (`1` when
the list is empty or the top score is zero, since `0` is falsy). -/
def reciprocalRankFusion (vectorResults keywordResults : List SearchResult)
    (k : Nat := 60) : List SearchResult :=
  let sorted := rrfSorted vectorResults keywordResults k
  let maxScore : ℚ :=
    match sorted.head? with
    | some e => if e.score == 0 then 1 else e.score
    | none => 1
  sorted.map (fun item => { item.result with similarity := item.result.similarity / maxScore })

/-- A stored knowledge fragment (row of the `knowledge_chunks` table);
`hasEmbedding` is whether `embedding IS NOT NULL`. -/
structure Fragment where
  id : Nat
  content : String
  source_type : String
  source_id : String
  channel_id : Option String
  author : Option String
  timestamp : Option Int
  permalink : Option String
  is_source_of_truth : Bool
  is_customer_safe : Bool
  metadata : Option String
  hasEmbedding : Bool
deriving Repr, DecidableEq

/-- The database collaborator: the table plus the two query-dependent
scoring functions the store computes (`1 - (embedding <=> q)` is expressed
through `dist`, `ts_rank`/`@@` through `tsRank`/`tsMatch`).  SQL
`SELECT ... WHERE ... ORDER BY ... LIMIT` is given its standard semantics as
filter, stable sort and take. -/
structure Store where
  table : List Fragment
  dist : List ℚ → Fragment → ℚ
  tsRank : String → Fragment → ℚ
  tsMatch : String → Fragment → Bool

/-- A row as returned by either search query, with the computed
`similarity` column. -/
def fragToResult (f : Fragment) (similarity : ℚ) : SearchResult :=
  { id := f.id
    content := f.content
    source_type := f.source_type
    source_id := f.source_id
    channel_id := f.channel_id
    author := f.author
    timestamp := f.timestamp
    permalink := f.permalink
    is_source_of_truth := f.is_source_of_truth
    is_customer_safe := f.is_customer_safe
    metadata := f.metadata
    similarity := similarity }

/-- The optional channel filter (`AND channel_id = $i`, appended only when a
channel id is supplied). -/
def channelOk (channelId : Option String) (f : Fragment) : Bool :=
  match channelId with
  | some c => f.channel_id == some c
  | none => true

/-- The WHERE clause of the vector query of `hybridSearch` (hybridSearch.ts
lines 63-84): `embedding IS NOT NULL`, plus `is_customer_safe = true` when
`customerSafeOnly`, plus the optional channel filter. -/
def hybridVectorWhere (customerSafeOnly : Bool) (channelId : Option String)
    (f : Fragment) : Bool :=
  f.hasEmbedding && (!customerSafeOnly || f.is_customer_safe) && channelOk channelId f

/-- The WHERE clause of the keyword query of `hybridSearch` (hybridSearch.ts
lines 93-113): full-text match, plus the same optional filters. -/
def hybridKeywordWhere (query : String) (st : Store) (customerSafeOnly : Bool)
    (channelId : Option String) (f : Fragment) : Bool :=
  st.tsMatch query f && (!customerSafeOnly || f.is_customer_safe) && channelOk channelId f

/-- The vector query: filtered rows ordered by ascending distance to the
query embedding, limited, with `similarity = 1 - dist`. -/
def runVectorQuery (st : Store) (emb : List ℚ) (customerSafeOnly : Bool)
    (channelId : Option String) (lim : Nat) : List SearchResult :=
  ((List.insertionSort (fun a b => st.dist emb a ≤ st.dist emb b)
      (st.table.filter (hybridVectorWhere customerSafeOnly channelId))).take lim).map
    (fun f => fragToResult f (1 - st.dist emb f))

/-- The keyword query: matching rows ordered by descending `ts_rank`,
limited, with `similarity = ts_rank`. -/
def runKeywordQuery (st : Store) (query : String) (customerSafeOnly : Bool)
    (channelId : Option String) (lim : Nat) : List SearchResult :=
  ((List.insertionSort (fun a b => st.tsRank query b ≤ st.tsRank query a)
      (st.table.filter (hybridKeywordWhere query st customerSafeOnly channelId))).take lim).map
    (fun f => fragToResult f (st.tsRank query f))

/-- `SearchOptions` from search.ts: all fields optional, defaults applied at
the use sites. -/
structure SearchOptions where
  limit : Option Nat := none
  customerSafeOnly : Option Bool := none
  sourceOfTruthOnly : Option Bool := none
  channelId : Option String := none
  minSimilarity : Option ℚ := none

/-- `hybridSearch` from hybridSearch.ts lines 54-147.  `embedResult` is the
outcome of the awaited `generateEmbedding(query)` call, which happens before
either store query is issued; on failure the error is rethrown unchanged
(the `catch` block rethrows).  On success both channels run (over-fetching
`limit * 2` rows each), are fused with `reciprocalRankFusion`, filtered by
`minSimilarity` (`result.similarity || 0` equals `result.similarity` over
ℚ), and cut to `limit`. -/
def hybridSearch (st : Store) (embedResult : Except String (List ℚ)) (query : String)
    (options : SearchOptions) : Except String (List SearchResult) :=
  let limit := options.limit.getD 10
  let customerSafeOnly := options.customerSafeOnly.getD false
  let channelId := options.channelId
  let minSimilarity := options.minSimilarity.getD (3 / 10)
  match embedResult with
  | Except.error e => Except.error e
  | Except.ok emb =>
    let vectorRows := runVectorQuery st emb customerSafeOnly channelId (limit * 2)
    let keywordRows := runKeywordQuery st query customerSafeOnly channelId (limit * 2)
    let merged := reciprocalRankFusion vectorRows keywordRows
    let filtered := merged.filter (fun result => minSimilarity ≤ result.similarity)
    Except.ok (filtered.take limit)

/-- The WHERE clause of `searchKnowledge` (search.ts lines 43-67), which
additionally supports `sourceOfTruthOnly`. -/
def knowledgeWhere (customerSafeOnly sourceOfTruthOnly : Bool) (channelId : Option String)
    (f : Fragment) : Bool :=
  f.hasEmbedding && (!customerSafeOnly || f.is_customer_safe)
    && (!sourceOfTruthOnly || f.is_source_of_truth) && channelOk channelId f

/-- `searchKnowledge` from search.ts lines 27-91: plain vector search with
over-fetch `limit * 2`, then the `minSimilarity` filter and the `limit`
cut. -/
def searchKnowledge (st : Store) (embedResult : Except String (List ℚ)) (query : String)
    (options : SearchOptions) : Except String (List SearchResult) :=
  let limit := options.limit.getD 5
  let customerSafeOnly := options.customerSafeOnly.getD false
  let sourceOfTruthOnly := options.sourceOfTruthOnly.getD false
  let channelId := options.channelId
  let minSimilarity := options.minSimilarity.getD (3 / 10)
  match embedResult with
  | Except.error e => Except.error e
  | Except.ok emb =>
    let rows :=
      ((List.insertionSort (fun a b => st.dist emb a ≤ st.dist emb b)
          (st.table.filter (knowledgeWhere customerSafeOnly sourceOfTruthOnly channelId))).take
        (limit * 2)).map (fun f => fragToResult f (1 - st.dist emb f))
    let filtered := rows.filter (fun row => minSimilarity ≤ row.similarity)
    Except.ok (filtered.take limit)

/-- The request body of `POST /api/ask` (knowledge-routes.ts lines 9-15). -/
structure AskBody where
  question : String
  mode : Option Mode := none
  limit : Option Nat := none
  useHybrid : Option Bool := none
  minSimilarity : Option ℚ := none

/-- The retrieval step of the `/ask` route handler (knowledge-routes.ts
lines 29-51): after validating the question, the chosen search function is
called with `customerSafeOnly := mode === 'customer'`. -/
def askRouteResults (st : Store) (embedResult : Except String (List ℚ)) (body : AskBody) :
    Except String (List SearchResult) :=
  if body.question == "" then Except.error "Question is required"
  else
    let mode := body.mode.getD Mode.internal
    let limit := body.limit.getD 5
    let useHybrid := body.useHybrid.getD true
    let minSimilarity := body.minSimilarity.getD (1 / 5)
    let opts : SearchOptions :=
      { limit := some limit
        customerSafeOnly := some (mode == Mode.customer)
        minSimilarity := some minSimilarity }
    if useHybrid then hybridSearch st embedResult body.question opts
    else searchKnowledge st embedResult body.question opts

/-- The `/ask` route handler up to the answer (knowledge-routes.ts line 53):
the retrieved results are passed to `generateAnswerWithCitations` together
with the mode. -/
def askRouteAnswer (st : Store) (embedResult : Except String (List ℚ)) (body : AskBody)
    (relevanceCheck rawAnswer : String) : Except String AnswerWithCitations :=
  match askRouteResults st embedResult body with
  | Except.error e => Except.error e
  | Except.ok results =>
    Except.ok
      (generateAnswerWithCitations body.question results (body.mode.getD Mode.internal)
        relevanceCheck rawAnswer)

/-- A customer-safe sample result (shaped like the mocks in
src/tests/citation-policy.test.ts). -/
def sampleSafe : SearchResult :=
  { id := 1
    content := "Public documentation about the feature"
    source_type := "slack"
    source_id := "msg_1"
    channel_id := some "C123"
    author := some "Test User"
    timestamp := some 0
    permalink := none
    is_source_of_truth := false
    is_customer_safe := true
    metadata := none
    similarity := 1 }

/-- A second customer-safe sample result. -/
def sampleSafe2 : SearchResult :=
  { sampleSafe with id := 2, source_id := "msg_2", content := "Official API documentation" }

/-- An internal-only sample result. -/
def sampleInternal : SearchResult :=
  { sampleSafe with
    id := 3
    source_id := "msg_3"
    content := "Internal team discussion"
    is_customer_safe := false }

/-- A sample stored fragment that is not customer safe. -/
def sampleFragmentInternal : Fragment :=
  { id := 7
    content := "Team planning notes"
    source_type := "slack"
    source_id := "msg_7"
    channel_id := some "C123"
    author := some "Test User"
    timestamp := some 0
    permalink := none
    is_source_of_truth := false
    is_customer_safe := false
    metadata := none
    hasEmbedding := true }

/-- A sample store over that single fragment, with constant scoring
functions. -/
def sampleStore : Store :=
  { table := [sampleFragmentInternal]
    dist := fun _ _ => 0
    tsRank := fun _ _ => 0
    tsMatch := fun _ _ => true }

/-- The association-list image of one ranked channel starting at rank `i`:
the entry of the result at 0-based rank `i + j` carries score
`rrfScore k (i + j)`.  Used to state what each channel contributes to the
fusion map. -/
def channelEntries (k : Nat) : Nat → List SearchResult → List (Nat × FusedEntry)
  | _, [] => []
  | i, r :: rs =>
    (r.id, { result := { r with similarity := rrfScore k i }, score := rrfScore k i })
      :: channelEntries k (i + 1) rs

/-- C6: with an empty search-result list, `generateAnswerWithCitations`
returns the fixed insufficient-information message and no citations, for
both modes and independently of the query and of both generation outputs
(so no generation call can influence the result). -/
theorem C6_empty_evidence_determinism (query : String) (mode : Mode)
    (relevanceCheck rawAnswer : String) :
    generateAnswerWithCitations query [] mode relevanceCheck rawAnswer =
      { answer := insufficientInfoMessage
        citations := []
        mode := mode
        canCiteForCustomer := false } := by
  rfl

/-- C5: with a non-empty result list in which no entry is customer safe,
customer mode returns the fixed internal-only message, no citations and
`canCiteForCustomer = false`, independently of both generation outputs; the
branch taken is the policy-blocked one, decided before the relevance gate
for every relevance judgment. -/
theorem C5_policy_blocked_determinism (query : String)
    (searchResults : List SearchResult)
    (h1 : searchResults ≠ [])
    (h2 : ∀ r ∈ searchResults, r.is_customer_safe = false) :
    (∀ relevanceCheck rawAnswer,
      generateAnswerWithCitations query searchResults Mode.customer relevanceCheck rawAnswer =
        { answer := internalOnlyMessage
          citations := []
          mode := Mode.customer
          canCiteForCustomer := false }) ∧
    (∀ relevanceCheck,
      answerBranch searchResults Mode.customer relevanceCheck =
        AnswerOutcome.policyBlocked) := by
  have hfil : searchResults.filter (fun r => r.is_customer_safe) = [] := by
    rw [List.filter_eq_nil_iff]
    intro a ha
    simp [h2 a ha]
  have hlen : (searchResults.length == 0) = false := by
    simp [List.length_eq_zero, h1]
  constructor
  · intro relevanceCheck rawAnswer
    unfold generateAnswerWithCitations
    simp [hlen, hfil, relevantFor]
  · intro relevanceCheck
    unfold answerBranch
    simp [hlen, hfil, relevantFor]

/-- Closed instance of `C5_policy_blocked_determinism` at a concrete
all-internal evidence list. -/
theorem C5_policy_blocked_determinism_witness :
    (([sampleInternal] : List SearchResult) ≠ [] ∧
      ∀ r ∈ ([sampleInternal] : List SearchResult), r.is_customer_safe = false) ∧
    ((∀ relevanceCheck rawAnswer,
      generateAnswerWithCitations "q" [sampleInternal] Mode.customer relevanceCheck rawAnswer =
        { answer := internalOnlyMessage
          citations := []
          mode := Mode.customer
          canCiteForCustomer := false }) ∧
    (∀ relevanceCheck,
      answerBranch [sampleInternal] Mode.customer relevanceCheck =
        AnswerOutcome.policyBlocked)) :=
  ⟨⟨List.cons_ne_nil _ _, by decide⟩,
    C5_policy_blocked_determinism "q" [sampleInternal] (List.cons_ne_nil _ _) (by decide)⟩

/-- C9: when the awaited embedding call fails, `hybridSearch` fails as a
whole with the same error, for every store, query and options — so no store
query contributes and no lexical-only result list is ever returned. -/
theorem C9_embedding_failure_fails_closed (st : Store) (query : String)
    (options : SearchOptions) (e : String) :
    hybridSearch st (Except.error e) query options = Except.error e := by
  rfl

/-- C1: in customer mode, every citation ever returned is customer safe and
is built from the customer-safe restriction of the supplied results. -/
theorem C1_visibility_invariant (query : String) (searchResults : List SearchResult)
    (relevanceCheck rawAnswer : String) (c : Citation)
    (hc : c ∈ (generateAnswerWithCitations query searchResults Mode.customer
        relevanceCheck rawAnswer).citations) :
    c.is_customer_safe = true ∧
      c ∈ (searchResults.filter (fun r => r.is_customer_safe)).map toCitation := by
  by_cases h0 : (searchResults.length == 0) = true
  · simp [generateAnswerWithCitations, h0] at hc
  · by_cases h1 : ((searchResults.filter (fun r => r.is_customer_safe)).length == 0) = true
    · simp [generateAnswerWithCitations, relevantFor, h0, h1] at hc
    · by_cases h2 : isRelevantResponse relevanceCheck = true
      · simp only [generateAnswerWithCitations, relevantFor, buildCitations, h0, h1, h2,
          Bool.false_eq_true, if_false, beq_self_eq_true, Bool.true_and, Bool.not_true,
          if_true, Bool.not_eq_true] at hc
        simp only [List.mem_filterMap, Option.map_eq_some'] at hc
        obtain ⟨index, _, r, hr, hrc⟩ := hc
        have hmem : r ∈ searchResults.filter (fun r => r.is_customer_safe) :=
          List.get?_mem hr
        refine ⟨?_, ?_⟩
        · have := List.of_mem_filter hmem
          simpa [← hrc, toCitation] using this
        · rw [← hrc]
          exact List.mem_map_of_mem toCitation hmem
      · simp [generateAnswerWithCitations, relevantFor, h0, h1, h2] at hc

/-- Closed instance of `C1_visibility_invariant` at a concrete input with a
non-empty citation list. -/
theorem C1_visibility_invariant_witness :
    toCitation sampleSafe ∈
        (generateAnswerWithCitations "q" [sampleSafe] Mode.customer "YES"
          "Use [1].").citations ∧
      ((toCitation sampleSafe).is_customer_safe = true ∧
        toCitation sampleSafe ∈
          ([sampleSafe].filter (fun r => r.is_customer_safe)).map toCitation) :=
  ⟨by decide,
    C1_visibility_invariant "q" [sampleSafe] "YES" "Use [1]." (toCitation sampleSafe)
      (by decide)⟩

/-- C7 fails as stated: the empty-evidence early return and the
negative-relevance early return both hard-code `canCiteForCustomer = false`
even in internal mode. -/
theorem C7_counterexample :
    (generateAnswerWithCitations "q" [] Mode.internal "YES" "x").canCiteForCustomer
        = false ∧
      (generateAnswerWithCitations "q" [sampleInternal] Mode.internal "NO"
          "x").canCiteForCustomer = false := by
  decide

/-- C7 amended: in internal mode `canCiteForCustomer` is `true` exactly on
the path that reaches generation (non-empty results and a positive relevance
judgment); the empty-results and negative-relevance early returns yield
`false`. -/
theorem C7_amended_internal_canCite (query : String) (searchResults : List SearchResult)
    (relevanceCheck rawAnswer : String) (h1 : searchResults ≠ []) :
    (isRelevantResponse relevanceCheck = true →
      (generateAnswerWithCitations query searchResults Mode.internal relevanceCheck
          rawAnswer).canCiteForCustomer = true) ∧
    (isRelevantResponse relevanceCheck = false →
      (generateAnswerWithCitations query searchResults Mode.internal relevanceCheck
          rawAnswer).canCiteForCustomer = false) ∧
    (∀ query2 relevanceCheck2 rawAnswer2,
      (generateAnswerWithCitations query2 [] Mode.internal relevanceCheck2
          rawAnswer2).canCiteForCustomer = false) := by
  have hlen : (searchResults.length == 0) = false := by
    simp [List.length_eq_zero, h1]
  refine ⟨?_, ?_, ?_⟩
  · intro hrel
    simp [generateAnswerWithCitations, relevantFor, hlen, hrel]
  · intro hrel
    simp [generateAnswerWithCitations, relevantFor, hlen, hrel]
  · intro query2 relevanceCheck2 rawAnswer2
    rfl

/-- Closed instance of `C7_amended_internal_canCite`. -/
theorem C7_amended_internal_canCite_witness :
    (([sampleInternal] : List SearchResult) ≠ []) ∧
    ((isRelevantResponse "YES" = true →
      (generateAnswerWithCitations "q" [sampleInternal] Mode.internal "YES"
          "x").canCiteForCustomer = true) ∧
    (isRelevantResponse "YES" = false →
      (generateAnswerWithCitations "q" [sampleInternal] Mode.internal "YES"
          "x").canCiteForCustomer = false) ∧
    (∀ query2 relevanceCheck2 rawAnswer2,
      (generateAnswerWithCitations query2 [] Mode.internal relevanceCheck2
          rawAnswer2).canCiteForCustomer = false)) :=
  ⟨List.cons_ne_nil _ _,
    C7_amended_internal_canCite "q" [sampleInternal] "YES" "x" (List.cons_ne_nil _ _)⟩

/-- C2 fails as stated: a `[0]` token is not stripped (the code only strips
numbers greater than `maxValidCitation`), so index 0 survives in the final
answer text; moreover stripping an invalid token can splice its neighbours
into a brand-new out-of-range token, here `[12]` with an Evidence Set of
size 1. -/
theorem C2_counterexample :
    cleanInvalidCitations "[0] ok" 1 = "[0] ok" ∧
      citeNumbers ("[0] ok".data) = [0] ∧
      (generateAnswerWithCitations "q" [sampleSafe] Mode.internal "YES"
          "[0] ok [1]").answer = "[0] ok [1]" ∧
      cleanInvalidCitations "[1[99]2]" 1 = "[12]" ∧
      citeNumbers ("[12]".data) = [12] := by
  decide

/-- C8 fails as stated: with raw output citing `[2]` before `[1]`, the
first-use order is entry 2 then entry 1, but the returned list is ordered by
ascending Evidence Set index (entry 1 first). -/
theorem C8_counterexample :
    (generateAnswerWithCitations "q" [sampleSafe, sampleSafe2] Mode.internal "YES"
        "B [2] and A [1].").citations = [toCitation sampleSafe, toCitation sampleSafe2] ∧
      citeNumbers (generateAnswerWithCitations "q" [sampleSafe, sampleSafe2] Mode.internal
          "YES" "B [2] and A [1].").answer.data = [2, 1] ∧
      toCitation sampleSafe ≠ toCitation sampleSafe2 := by
  decide

theorem checkCiteAt_cons_ne {c : Char} {cs : List Char} (h : c ≠ '[') :
    checkCiteAt (c :: cs) = none := by
  simp [checkCiteAt, h]

theorem takeWhile_all_cons_neg {α : Type} {p : α → Bool} {ds : List α} {x : α}
    {t : List α} (hds : ∀ a ∈ ds, p a = true) (hx : p x = false) :
    (ds ++ x :: t).takeWhile p = ds ∧ (ds ++ x :: t).dropWhile p = x :: t := by
  induction ds with
  | nil => simp [List.takeWhile_cons, List.dropWhile_cons, hx]
  | cons a l ih =>
    have ha : p a = true := hds a (List.mem_cons_self a l)
    have ihl := ih (fun b hb => hds b (List.mem_cons_of_mem a hb))
    simp [List.takeWhile_cons, List.dropWhile_cons, ha, ihl.1, ihl.2]

theorem dropWhile_append_all {α : Type} {p : α → Bool} {l : List α}
    (h : ∀ a ∈ l, p a = true) (s : List α) :
    (l ++ s).dropWhile p = s.dropWhile p := by
  induction l with
  | nil => simp
  | cons a t ih =>
    have ha : p a = true := h a (List.mem_cons_self a t)
    simp [List.dropWhile_cons, ha, ih (fun b hb => h b (List.mem_cons_of_mem a hb))]

theorem append_takeDropWhile_of_ne {α : Type} {p : α → Bool} {l : List α}
    (h : l.dropWhile p ≠ []) (s : List α) :
    (l ++ s).takeWhile p = l.takeWhile p ∧ (l ++ s).dropWhile p = l.dropWhile p ++ s := by
  induction l with
  | nil => simp at h
  | cons a t ih =>
    by_cases ha : p a = true
    · have h' : t.dropWhile p ≠ [] := by
        simpa [List.dropWhile_cons, ha] using h
      have := ih h'
      simp [List.takeWhile_cons, List.dropWhile_cons, ha, this.1, this.2]
    · have ha' : p a = false := by simpa using ha
      simp [List.takeWhile_cons, List.dropWhile_cons, ha']

theorem checkCiteAt_cons (c : Char) (rest : List Char) :
    checkCiteAt (c :: rest) =
      if c = '[' then
        if (rest.dropWhile Char.isDigit).head? = some ']' then
          if (rest.takeWhile Char.isDigit).isEmpty then none
          else
            some (digitsToNat (rest.takeWhile Char.isDigit), rest.takeWhile Char.isDigit,
              (rest.dropWhile Char.isDigit).tail)
        else none
      else none := rfl

theorem checkCiteAt_eq_some {l : List Char} {n : Nat} {ds rest : List Char}
    (h : checkCiteAt l = some (n, ds, rest)) :
    l = '[' :: (ds ++ ']' :: rest) ∧ ds ≠ [] ∧ (∀ c ∈ ds, c.isDigit = true) ∧
      n = digitsToNat ds := by
  match l with
  | [] => simp [checkCiteAt] at h
  | c :: r0 =>
    by_cases hc : c = '['
    · subst hc
      rw [checkCiteAt_cons] at h
      simp only [eq_self_iff_true, if_true] at h
      by_cases hh : (r0.dropWhile Char.isDigit).head? = some ']'
      · rw [if_pos hh] at h
        by_cases hds : (r0.takeWhile Char.isDigit).isEmpty = true
        · rw [if_pos hds] at h; simp at h
        · rw [if_neg hds] at h
          obtain ⟨hn, hds', hrest⟩ : digitsToNat (r0.takeWhile Char.isDigit) = n ∧
              r0.takeWhile Char.isDigit = ds ∧ (r0.dropWhile Char.isDigit).tail = rest := by
            simpa using h
          obtain ⟨tail, hafter⟩ : ∃ tail, r0.dropWhile Char.isDigit = ']' :: tail := by
            cases hdw : r0.dropWhile Char.isDigit with
            | nil => rw [hdw] at hh; simp at hh
            | cons d t =>
              rw [hdw] at hh
              simp only [List.head?_cons, Option.some.injEq] at hh
              exact ⟨t, by rw [hh]⟩
          have htail : rest = tail := by rw [← hrest, hafter]; rfl
          refine ⟨?_, ?_, ?_, ?_⟩
          · have hsplit : r0.takeWhile Char.isDigit ++ r0.dropWhile Char.isDigit = r0 :=
              List.takeWhile_append_dropWhile Char.isDigit r0
            rw [hafter, hds', ← htail] at hsplit
            rw [← hsplit]
          · rw [← hds']
            simpa [List.isEmpty_iff] using hds
          · intro a hmem
            rw [← hds'] at hmem
            exact List.mem_takeWhile_imp hmem
          · rw [← hn, hds']
      · rw [if_neg hh] at h; simp at h
    · rw [checkCiteAt_cons_ne hc] at h
      simp at h

theorem checkCiteAt_rest_lt {l : List Char} {n : Nat} {ds rest : List Char}
    (h : checkCiteAt l = some (n, ds, rest)) : rest.length < l.length := by
  obtain ⟨hl, -, -, -⟩ := checkCiteAt_eq_some h
  rw [hl]
  simp [List.length_append]
  omega

theorem checkCiteAt_literal {ds rest : List Char} (hds : ds ≠ [])
    (hdig : ∀ c ∈ ds, c.isDigit = true) :
    checkCiteAt ('[' :: (ds ++ ']' :: rest)) = some (digitsToNat ds, ds, rest) := by
  have hsplit := takeWhile_all_cons_neg (p := Char.isDigit) (x := ']')
    (t := rest) hdig (by decide)
  have hempty : ds.isEmpty = false := by
    cases ds with
    | nil => exact absurd rfl hds
    | cons a t => rfl
  rw [checkCiteAt_cons]
  simp only [eq_self_iff_true, if_true, hsplit.1, hsplit.2, hempty]
  simp

theorem checkCiteAt_append {l s : List Char} {n : Nat} {ds rest : List Char}
    (h : checkCiteAt l = some (n, ds, rest)) :
    checkCiteAt (l ++ s) = some (n, ds, rest ++ s) := by
  obtain ⟨hl, hds, hdig, hn⟩ := checkCiteAt_eq_some h
  subst hl
  have harr : ('[' :: (ds ++ ']' :: rest)) ++ s = '[' :: (ds ++ ']' :: (rest ++ s)) := by
    simp
  rw [harr, checkCiteAt_literal hds hdig, hn]

theorem ws_char_facts {c : Char} (h : c.isWhitespace = true) :
    c.isDigit = false ∧ c ≠ ']' ∧ c ≠ '[' := by
  have hcases : c = ' ' ∨ c = '\t' ∨ c = '\r' ∨ c = '\n' := by
    simpa [Char.isWhitespace, or_assoc] using h
  rcases hcases with h1 | h1 | h1 | h1 <;> subst h1 <;> exact ⟨by decide, by decide, by decide⟩

theorem checkCiteAt_append_none {l s : List Char}
    (hs : ∀ c ∈ s, c.isDigit = false ∧ c ≠ ']' ∧ c ≠ '[')
    (h : checkCiteAt l = none) : checkCiteAt (l ++ s) = none := by
  match l with
  | [] =>
    cases s with
    | nil => rfl
    | cons c cs => exact checkCiteAt_cons_ne (hs c (List.mem_cons_self c cs)).2.2
  | c :: r0 =>
    by_cases hc : c = '['
    · subst hc
      rw [checkCiteAt_cons] at h
      simp only [eq_self_iff_true, if_true] at h
      have hgoal : checkCiteAt ('[' :: r0 ++ s) = checkCiteAt ('[' :: (r0 ++ s)) := rfl
      rw [hgoal, checkCiteAt_cons]
      simp only [eq_self_iff_true, if_true]
      cases hafter : r0.dropWhile Char.isDigit with
      | nil =>
        have hall : ∀ a ∈ r0, Char.isDigit a = true := List.dropWhile_eq_nil_iff.1 hafter
        have hdrop : (r0 ++ s).dropWhile Char.isDigit = s.dropWhile Char.isDigit :=
          dropWhile_append_all hall s
        cases s with
        | nil =>
          rw [hdrop]
          simp
        | cons c1 cs1 =>
          have hc1 := hs c1 (List.mem_cons_self c1 cs1)
          have hdrop2 : (c1 :: cs1).dropWhile Char.isDigit = c1 :: cs1 := by
            simp [List.dropWhile_cons, hc1.1]
          rw [hdrop, hdrop2]
          rw [if_neg (by simp [hc1.2.1])]
      | cons d tail =>
        have hne : r0.dropWhile Char.isDigit ≠ [] := by rw [hafter]; simp
        have hsplit := append_takeDropWhile_of_ne hne s
        rw [hafter] at h
        rw [hsplit.2, hsplit.1, hafter]
        simp only [List.cons_append]
        by_cases hd : ((d :: tail).head? = some ']')
        · have hd2 : ((d :: (tail ++ s)).head? = some ']') := by
            simpa using hd
          rw [if_pos hd] at h
          rw [if_pos hd2]
          by_cases hemp : (r0.takeWhile Char.isDigit).isEmpty = true
          · rw [if_pos hemp]
          · rw [if_neg hemp] at h
            simp at h
        · have hd2 : ¬ ((d :: (tail ++ s)).head? = some ']') := by
            simpa using hd
          rw [if_neg hd2]
    · exact checkCiteAt_cons_ne hc

theorem citeAux_cons (fuel : Nat) (c : Char) (cs : List Char) :
    citeAux (fuel + 1) (c :: cs) =
      match checkCiteAt (c :: cs) with
      | some (n, _, rest) => n :: citeAux fuel rest
      | none => citeAux fuel cs := rfl

theorem citeAux_succ (fuel : Nat) : ∀ (l : List Char), l.length ≤ fuel →
    citeAux (fuel + 1) l = citeAux fuel l := by
  induction fuel with
  | zero =>
    intro l hl
    have hnil : l = [] := by
      cases l with
      | nil => rfl
      | cons c cs => simp at hl
    subst hnil
    rfl
  | succ fuel ih =>
    intro l hl
    cases l with
    | nil => rfl
    | cons c cs =>
      have hcs : cs.length ≤ fuel := by
        simp only [List.length_cons] at hl
        omega
      cases hcc : checkCiteAt (c :: cs) with
      | none =>
        rw [citeAux_cons (fuel + 1), citeAux_cons fuel, hcc]
        exact ih cs hcs
      | some val =>
        obtain ⟨n, ds, rest⟩ := val
        have hrest : rest.length ≤ fuel := by
          have := checkCiteAt_rest_lt hcc
          simp only [List.length_cons] at this hl
          omega
        rw [citeAux_cons (fuel + 1), citeAux_cons fuel, hcc]
        exact congrArg (List.cons n) (ih rest hrest)

theorem citeAux_eq (fuel : Nat) : ∀ (l : List Char), l.length ≤ fuel →
    citeAux fuel l = citeNumbers l := by
  induction fuel with
  | zero =>
    intro l hl
    have hnil : l = [] := by
      cases l with
      | nil => rfl
      | cons c cs => simp at hl
    subst hnil
    rfl
  | succ fuel ih =>
    intro l hl
    by_cases h : l.length ≤ fuel
    · rw [citeAux_succ fuel l h]
      exact ih l h
    · have hlen : l.length = fuel + 1 := by omega
      rw [citeNumbers, hlen]

theorem citeNumbers_cons_none {c : Char} {cs : List Char}
    (h : checkCiteAt (c :: cs) = none) : citeNumbers (c :: cs) = citeNumbers cs := by
  rw [citeNumbers, List.length_cons, citeAux_cons, h]
  exact citeAux_eq cs.length cs le_rfl

theorem citeNumbers_cons_some {c : Char} {cs : List Char} {n : Nat} {ds rest : List Char}
    (h : checkCiteAt (c :: cs) = some (n, ds, rest)) :
    citeNumbers (c :: cs) = n :: citeNumbers rest := by
  have hrest : rest.length ≤ cs.length := by
    have := checkCiteAt_rest_lt h
    simp only [List.length_cons] at this
    omega
  rw [citeNumbers, List.length_cons, citeAux_cons, h]
  exact congrArg (List.cons n) (citeAux_eq cs.length rest hrest)

theorem citeNumbers_all_ws {s : List Char} (hs : ∀ c ∈ s, c.isWhitespace = true) :
    citeNumbers s = [] := by
  induction s with
  | nil => rfl
  | cons c cs ih =>
    have hc := ws_char_facts (hs c (List.mem_cons_self c cs))
    rw [citeNumbers_cons_none (checkCiteAt_cons_ne hc.2.2)]
    exact ih (fun a ha => hs a (List.mem_cons_of_mem c ha))

theorem citeNumbers_append_ws (N : Nat) : ∀ (l s : List Char), l.length ≤ N →
    (∀ c ∈ s, c.isWhitespace = true) → citeNumbers (l ++ s) = citeNumbers l := by
  induction N with
  | zero =>
    intro l s hl hs
    have hnil : l = [] := by
      cases l with
      | nil => rfl
      | cons c cs => simp at hl
    subst hnil
    rw [List.nil_append, citeNumbers_all_ws hs]
    rfl
  | succ N ih =>
    intro l s hl hs
    cases l with
    | nil =>
      rw [List.nil_append, citeNumbers_all_ws hs]
      rfl
    | cons c cs =>
      have hsfacts : ∀ a ∈ s, a.isDigit = false ∧ a ≠ ']' ∧ a ≠ '[' :=
        fun a ha => ws_char_facts (hs a ha)
      have hcs : cs.length ≤ N := by
        simp only [List.length_cons] at hl
        omega
      cases hcc : checkCiteAt (c :: cs) with
      | none =>
        have happ : checkCiteAt (c :: (cs ++ s)) = none := by
          have := checkCiteAt_append_none hsfacts hcc
          simpa using this
        calc citeNumbers ((c :: cs) ++ s)
            = citeNumbers (cs ++ s) := citeNumbers_cons_none happ
          _ = citeNumbers cs := ih cs s hcs hs
          _ = citeNumbers (c :: cs) := (citeNumbers_cons_none hcc).symm
      | some val =>
        obtain ⟨n, ds, rest⟩ := val
        have happ : checkCiteAt (c :: (cs ++ s)) = some (n, ds, rest ++ s) := by
          have := checkCiteAt_append (s := s) hcc
          simpa using this
        have hrest : rest.length ≤ N := by
          have := checkCiteAt_rest_lt hcc
          simp only [List.length_cons] at this hl
          omega
        calc citeNumbers ((c :: cs) ++ s)
            = n :: citeNumbers (rest ++ s) := citeNumbers_cons_some happ
          _ = n :: citeNumbers rest := by rw [ih rest s hrest hs]
          _ = citeNumbers (c :: cs) := (citeNumbers_cons_some hcc).symm

theorem citeNumbers_dropWhile_ws (m : List Char) :
    citeNumbers (m.dropWhile Char.isWhitespace) = citeNumbers m := by
  induction m with
  | nil => rfl
  | cons c cs ih =>
    by_cases hw : c.isWhitespace = true
    · rw [List.dropWhile_cons, if_pos hw, ih,
        citeNumbers_cons_none (checkCiteAt_cons_ne (ws_char_facts hw).2.2)]
    · rw [List.dropWhile_cons, if_neg hw]

theorem citeNumbers_trimChars (l : List Char) :
    citeNumbers (trimChars l) = citeNumbers l := by
  unfold trimChars
  set l1 := l.dropWhile Char.isWhitespace with hl1
  have hsplit : l1.reverse.takeWhile Char.isWhitespace
      ++ l1.reverse.dropWhile Char.isWhitespace = l1.reverse :=
    List.takeWhile_append_dropWhile _ _
  have hdecomp : l1 = (l1.reverse.dropWhile Char.isWhitespace).reverse
      ++ (l1.reverse.takeWhile Char.isWhitespace).reverse := by
    conv_lhs => rw [← List.reverse_reverse l1, ← hsplit]
    rw [List.reverse_append]
  have hws : ∀ c ∈ (l1.reverse.takeWhile Char.isWhitespace).reverse,
      c.isWhitespace = true := by
    intro c hcmem
    rw [List.mem_reverse] at hcmem
    exact List.mem_takeWhile_imp hcmem
  calc citeNumbers ((l1.reverse.dropWhile Char.isWhitespace).reverse)
      = citeNumbers ((l1.reverse.dropWhile Char.isWhitespace).reverse
          ++ (l1.reverse.takeWhile Char.isWhitespace).reverse) :=
        (citeNumbers_append_ws _ _ _ le_rfl hws).symm
    _ = citeNumbers l1 := by rw [← hdecomp]
    _ = citeNumbers l := citeNumbers_dropWhile_ws l

theorem usedFold_mem (n : Nat) : ∀ (nums acc : List Nat) (x : Nat),
    (x ∈ nums.foldl
        (fun acc citationIndex =>
          if 0 < citationIndex ∧ citationIndex ≤ n then
            if acc.contains (citationIndex - 1) then acc else acc ++ [citationIndex - 1]
          else acc) acc ↔
      x ∈ acc ∨ ∃ m ∈ nums, (0 < m ∧ m ≤ n) ∧ x = m - 1) := by
  intro nums
  induction nums with
  | nil =>
    intro acc x
    simp
  | cons m ms ih =>
    intro acc x
    rw [List.foldl_cons, ih]
    by_cases hm : 0 < m ∧ m ≤ n
    · rw [if_pos hm]
      by_cases hc : acc.contains (m - 1) = true
      · have hmem : (m - 1) ∈ acc := by
          simpa [List.contains, List.elem_iff] using hc
        rw [if_pos hc]
        constructor
        · rintro (h | ⟨m2, hm2, hg2, hx2⟩)
          · exact Or.inl h
          · exact Or.inr ⟨m2, List.mem_cons_of_mem m hm2, hg2, hx2⟩
        · rintro (h | ⟨m2, hm2, hg2, hx2⟩)
          · exact Or.inl h
          · rcases List.mem_cons.1 hm2 with hm2 | hm2
            · subst hm2
              subst hx2
              exact Or.inl hmem
            · exact Or.inr ⟨m2, hm2, hg2, hx2⟩
      · rw [if_neg hc]
        constructor
        · rintro (h | ⟨m2, hm2, hg2, hx2⟩)
          · rcases List.mem_append.1 h with h2 | h2
            · exact Or.inl h2
            · have hx : x = m - 1 := by simpa using h2
              exact Or.inr ⟨m, List.mem_cons_self m ms, hm, hx⟩
          · exact Or.inr ⟨m2, List.mem_cons_of_mem m hm2, hg2, hx2⟩
        · rintro (h | ⟨m2, hm2, hg2, hx2⟩)
          · exact Or.inl (List.mem_append_left _ h)
          · rcases List.mem_cons.1 hm2 with hm2 | hm2
            · subst hm2
              subst hx2
              exact Or.inl (List.mem_append_right _ (by simp))
            · exact Or.inr ⟨m2, hm2, hg2, hx2⟩
    · rw [if_neg hm]
      constructor
      · rintro (h | ⟨m2, hm2, hg2, hx2⟩)
        · exact Or.inl h
        · exact Or.inr ⟨m2, List.mem_cons_of_mem m hm2, hg2, hx2⟩
      · rintro (h | ⟨m2, hm2, hg2, hx2⟩)
        · exact Or.inl h
        · rcases List.mem_cons.1 hm2 with hm2 | hm2
          · subst hm2
            exact absurd hg2 hm
          · exact Or.inr ⟨m2, hm2, hg2, hx2⟩

theorem usedFold_nodup (n : Nat) : ∀ (nums acc : List Nat), acc.Nodup →
    (nums.foldl
        (fun acc citationIndex =>
          if 0 < citationIndex ∧ citationIndex ≤ n then
            if acc.contains (citationIndex - 1) then acc else acc ++ [citationIndex - 1]
          else acc) acc).Nodup := by
  intro nums
  induction nums with
  | nil =>
    intro acc hacc
    simpa using hacc
  | cons m ms ih =>
    intro acc hacc
    rw [List.foldl_cons]
    by_cases hm : 0 < m ∧ m ≤ n
    · rw [if_pos hm]
      by_cases hc : acc.contains (m - 1) = true
      · rw [if_pos hc]
        exact ih acc hacc
      · rw [if_neg hc]
        refine ih _ ?_
        rw [List.nodup_append]
        refine ⟨hacc, List.nodup_singleton _, ?_⟩
        intro a ha hb
        have : a = m - 1 := by simpa using hb
        subst this
        exact hc (by simpa [List.contains, List.elem_iff] using ha)
    · rw [if_neg hm]
      exact ih acc hacc

theorem mem_usedCitationIndices {cleaned : List Char} {n x : Nat} :
    x ∈ usedCitationIndices cleaned n ↔ x < n ∧ (x + 1) ∈ citeNumbers cleaned := by
  rw [usedCitationIndices, usedFold_mem]
  simp only [List.not_mem_nil, false_or]
  constructor
  · rintro ⟨m, hm, ⟨h1, h2⟩, hx⟩
    subst hx
    have hmx : m - 1 + 1 = m := by omega
    rw [hmx]
    exact ⟨by omega, hm⟩
  · rintro ⟨hlt, hmem⟩
    exact ⟨x + 1, hmem, ⟨by omega, by omega⟩, by omega⟩

theorem nodup_usedCitationIndices (cleaned : List Char) (n : Nat) :
    (usedCitationIndices cleaned n).Nodup :=
  usedFold_nodup n (citeNumbers cleaned) [] List.nodup_nil

theorem buildCitations_spec (relevantResults : List SearchResult) (cleaned : List Char) :
    ∃ idxs : List Nat,
      List.Pairwise (fun a b => a < b) idxs ∧
      (∀ i, i ∈ idxs ↔ i < relevantResults.length ∧ (i + 1) ∈ citeNumbers cleaned) ∧
      buildCitations relevantResults cleaned =
        idxs.filterMap (fun i => (relevantResults.get? i).map toCitation) ∧
      (∀ i ∈ idxs, (relevantResults.get? i).isSome = true) := by
  refine ⟨List.insertionSort (fun a b => a ≤ b)
      (usedCitationIndices cleaned relevantResults.length), ?_, ?_, rfl, ?_⟩
  · have hsorted : List.Sorted (fun a b => a ≤ b)
        (List.insertionSort (fun a b => a ≤ b)
          (usedCitationIndices cleaned relevantResults.length)) :=
      List.sorted_insertionSort _ _
    have hnodup := (List.perm_insertionSort (fun a b => a ≤ b)
        (usedCitationIndices cleaned relevantResults.length)).nodup_iff.2
      (nodup_usedCitationIndices cleaned relevantResults.length)
    exact hsorted.lt_of_le hnodup
  · intro i
    rw [(List.perm_insertionSort (fun a b => a ≤ b)
      (usedCitationIndices cleaned relevantResults.length)).mem_iff]
    exact mem_usedCitationIndices
  · intro i hi
    rw [(List.perm_insertionSort (fun a b => a ≤ b)
      (usedCitationIndices cleaned relevantResults.length)).mem_iff] at hi
    have hlt := (mem_usedCitationIndices.1 hi).1
    rw [List.get?_eq_get hlt]
    rfl

theorem gen_main_path (query : String) (searchResults : List SearchResult) (mode : Mode)
    (relevanceCheck rawAnswer : String)
    (h0 : searchResults ≠ [])
    (h1 : relevantFor searchResults mode ≠ [])
    (h2 : isRelevantResponse relevanceCheck = true) :
    generateAnswerWithCitations query searchResults mode relevanceCheck rawAnswer =
      { answer := jsTrim (cleanInvalidCitations rawAnswer (relevantFor searchResults mode).length)
        citations := buildCitations (relevantFor searchResults mode)
          (cleanInvalidCitations rawAnswer (relevantFor searchResults mode).length).data
        mode := mode
        canCiteForCustomer :=
          if mode == Mode.customer then searchResults.any (fun r => r.is_customer_safe)
          else true } := by
  have hlen0 : (searchResults.length == 0) = false := by
    simp [List.length_eq_zero, h0]
  have hcond : (mode == Mode.customer
      && (relevantFor searchResults mode).length == 0) = false := by
    cases mode with
    | internal => rfl
    | customer =>
      simp [List.length_eq_zero, h1]
  simp [generateAnswerWithCitations, hlen0, hcond, h2]

theorem C2_amended_citation_soundness (query : String) (searchResults : List SearchResult)
    (mode : Mode) (relevanceCheck rawAnswer : String)
    (h0 : searchResults ≠ [])
    (h1 : relevantFor searchResults mode ≠ [])
    (h2 : isRelevantResponse relevanceCheck = true) :
    (generateAnswerWithCitations query searchResults mode relevanceCheck rawAnswer).answer
        = jsTrim (cleanInvalidCitations rawAnswer (relevantFor searchResults mode).length) ∧
    ∃ idxs : List Nat,
      List.Pairwise (fun a b => a < b) idxs ∧
      (∀ i, i ∈ idxs ↔ (i < (relevantFor searchResults mode).length ∧
        (i + 1) ∈ citeNumbers (generateAnswerWithCitations query searchResults mode
          relevanceCheck rawAnswer).answer.data)) ∧
      (generateAnswerWithCitations query searchResults mode relevanceCheck
          rawAnswer).citations =
        idxs.filterMap (fun i => ((relevantFor searchResults mode).get? i).map toCitation) ∧
      (∀ i ∈ idxs, ((relevantFor searchResults mode).get? i).isSome = true) := by
  have hgen := gen_main_path query searchResults mode relevanceCheck rawAnswer h0 h1 h2
  obtain ⟨idxs, hpw, hmem, heq, hsome⟩ := buildCitations_spec (relevantFor searchResults mode)
    (cleanInvalidCitations rawAnswer (relevantFor searchResults mode).length).data
  rw [hgen]
  have htrim : citeNumbers (jsTrim (cleanInvalidCitations rawAnswer
        (relevantFor searchResults mode).length)).data
      = citeNumbers (cleanInvalidCitations rawAnswer
        (relevantFor searchResults mode).length).data :=
    citeNumbers_trimChars _
  refine ⟨rfl, idxs, hpw, ?_, heq, hsome⟩
  intro i
  rw [hmem i]
  constructor
  · rintro ⟨ha, hb⟩
    exact ⟨ha, by rw [htrim]; exact hb⟩
  · rintro ⟨ha, hb⟩
    exact ⟨ha, by rw [← htrim]; exact hb⟩

theorem C2_amended_citation_soundness_witness :
    (([sampleSafe] : List SearchResult) ≠ [] ∧
      relevantFor [sampleSafe] Mode.internal ≠ [] ∧
      isRelevantResponse "YES" = true) ∧
    ((generateAnswerWithCitations "q" [sampleSafe] Mode.internal "YES" "Use [1].").answer
        = jsTrim (cleanInvalidCitations "Use [1]."
            (relevantFor [sampleSafe] Mode.internal).length) ∧
    ∃ idxs : List Nat,
      List.Pairwise (fun a b => a < b) idxs ∧
      (∀ i, i ∈ idxs ↔ (i < (relevantFor [sampleSafe] Mode.internal).length ∧
        (i + 1) ∈ citeNumbers (generateAnswerWithCitations "q" [sampleSafe] Mode.internal
          "YES" "Use [1].").answer.data)) ∧
      (generateAnswerWithCitations "q" [sampleSafe] Mode.internal "YES"
          "Use [1].").citations =
        idxs.filterMap (fun i => ((relevantFor [sampleSafe] Mode.internal).get? i).map
          toCitation) ∧
      (∀ i ∈ idxs, ((relevantFor [sampleSafe] Mode.internal).get? i).isSome = true)) :=
  ⟨⟨by decide, by decide, by decide⟩,
    C2_amended_citation_soundness "q" [sampleSafe] Mode.internal "YES" "Use [1]."
      (by decide) (by decide) (by decide)⟩

theorem C8_amended_citation_order (query : String) (searchResults : List SearchResult)
    (mode : Mode) (relevanceCheck rawAnswer : String)
    (h0 : searchResults ≠ [])
    (h1 : relevantFor searchResults mode ≠ [])
    (h2 : isRelevantResponse relevanceCheck = true) :
    ∃ idxs : List Nat,
      List.Pairwise (fun a b => a < b) idxs ∧
      (generateAnswerWithCitations query searchResults mode relevanceCheck
          rawAnswer).citations =
        idxs.filterMap (fun i => ((relevantFor searchResults mode).get? i).map toCitation) ∧
      (∀ i ∈ idxs, ((relevantFor searchResults mode).get? i).isSome = true) := by
  have hgen := gen_main_path query searchResults mode relevanceCheck rawAnswer h0 h1 h2
  obtain ⟨idxs, hpw, hmem, heq, hsome⟩ := buildCitations_spec (relevantFor searchResults mode)
    (cleanInvalidCitations rawAnswer (relevantFor searchResults mode).length).data
  rw [hgen]
  exact ⟨idxs, hpw, heq, hsome⟩

theorem C8_amended_citation_order_witness :
    (([sampleSafe, sampleSafe2] : List SearchResult) ≠ [] ∧
      relevantFor [sampleSafe, sampleSafe2] Mode.internal ≠ [] ∧
      isRelevantResponse "YES" = true) ∧
    (∃ idxs : List Nat,
      List.Pairwise (fun a b => a < b) idxs ∧
      (generateAnswerWithCitations "q" [sampleSafe, sampleSafe2] Mode.internal "YES"
          "B [2] and A [1].").citations =
        idxs.filterMap (fun i => ((relevantFor [sampleSafe, sampleSafe2]
          Mode.internal).get? i).map toCitation) ∧
      (∀ i ∈ idxs, ((relevantFor [sampleSafe, sampleSafe2] Mode.internal).get? i).isSome
        = true)) :=
  ⟨⟨by decide, by decide, by decide⟩,
    C8_amended_citation_order "q" [sampleSafe, sampleSafe2] Mode.internal "YES"
      "B [2] and A [1]." (by decide) (by decide) (by decide)⟩

theorem rrfScore_pos (k i : Nat) : 0 < rrfScore k i := by
  unfold rrfScore
  have hden : (0 : ℚ) < (k : ℚ) + (i : ℚ) + 1 := by positivity
  exact div_pos one_pos hden

theorem mapSet_ne_nil (m : List (Nat × FusedEntry)) (x : Nat) (v : FusedEntry) :
    mapSet m x v ≠ [] := by
  unfold mapSet
  by_cases h : m.any (fun p => p.1 == x) = true
  · rw [if_pos h]
    intro hnil
    rw [List.map_eq_nil] at hnil
    subst hnil
    simp at h
  · rw [if_neg h]
    simp

theorem mem_mapSet {m : List (Nat × FusedEntry)} {x : Nat} {v : FusedEntry}
    {p : Nat × FusedEntry} (hp : p ∈ mapSet m x v) : p = (x, v) ∨ p ∈ m := by
  unfold mapSet at hp
  by_cases h : m.any (fun q => q.1 == x) = true
  · rw [if_pos h] at hp
    obtain ⟨q, hq, hpq⟩ := List.mem_map.1 hp
    by_cases hqx : q.1 == x
    · rw [if_pos hqx] at hpq
      exact Or.inl hpq.symm
    · rw [if_neg hqx] at hpq
      exact Or.inr (hpq ▸ hq)
  · rw [if_neg h] at hp
    rcases List.mem_append.1 hp with h2 | h2
    · exact Or.inr h2
    · exact Or.inl (by simpa using h2)

theorem find?_replace (x : Nat) (v : FusedEntry) :
    ∀ (m : List (Nat × FusedEntry)), m.any (fun p => p.1 == x) = true →
      List.find? (fun p => p.1 == x)
        (m.map (fun p => if p.1 == x then (x, v) else p)) = some (x, v) := by
  intro m
  induction m with
  | nil => intro h; simp at h
  | cons a t ih =>
    intro h
    rw [List.map_cons]
    by_cases hax : (a.1 == x) = true
    · rw [if_pos hax, List.find?_cons_of_pos _ (by simp)]
    · have hax' : (a.1 == x) = false := by simpa using hax
      have ht : t.any (fun p => p.1 == x) = true := by
        simpa [hax'] using h
      rw [if_neg hax, List.find?_cons_of_neg _ (by simpa using hax)]
      exact ih ht

theorem find?_append_new (x : Nat) (v : FusedEntry) :
    ∀ (m : List (Nat × FusedEntry)), (∀ p ∈ m, (p.1 == x) = false) →
      List.find? (fun p => p.1 == x) (m ++ [(x, v)]) = some (x, v) := by
  intro m
  induction m with
  | nil => simp
  | cons a t ih =>
    intro h
    have hax : (a.1 == x) = false := h a (List.mem_cons_self a t)
    rw [List.cons_append, List.find?_cons_of_neg _ (by simpa using hax)]
    exact ih (fun p hp => h p (List.mem_cons_of_mem a hp))

theorem mapGet_mapSet_self (m : List (Nat × FusedEntry)) (x : Nat) (v : FusedEntry) :
    mapGet (mapSet m x v) x = some v := by
  unfold mapGet mapSet
  by_cases h : m.any (fun p => p.1 == x) = true
  · rw [if_pos h, find?_replace x v m h]
    rfl
  · rw [if_neg h]
    have hne : ∀ p ∈ m, (p.1 == x) = false := by
      intro p hp
      by_cases hh : (p.1 == x) = true
      · exact absurd (List.any_eq_true.2 ⟨p, hp, hh⟩) h
      · simpa using hh
    rw [find?_append_new x v m hne]
    rfl

theorem mapGet_mapSet_ne (m : List (Nat × FusedEntry)) (x y : Nat) (v : FusedEntry)
    (hxy : y ≠ x) : mapGet (mapSet m x v) y = mapGet m y := by
  have hxyf : ((x : Nat) == y) = false := by
    simpa using fun hh => hxy hh.symm
  unfold mapGet mapSet
  by_cases h : m.any (fun p => p.1 == x) = true
  · rw [if_pos h]
    clear h
    induction m with
    | nil => rfl
    | cons a t ih =>
      rw [List.map_cons]
      by_cases hay : (a.1 == y) = true
      · have hax : (a.1 == x) = false := by
          have hh : a.1 = y := by simpa using hay
          subst hh
          simpa using hxy
        rw [if_neg (by simp [hax])]
        simp only [List.find?_cons, hay]
      · have hay' : (a.1 == y) = false := by simpa using hay
        by_cases hax : (a.1 == x) = true
        · rw [if_pos hax]
          simp only [List.find?_cons, hxyf, hay']
          exact ih
        · rw [if_neg (by simpa using hax)]
          simp only [List.find?_cons, hay']
          exact ih
  · rw [if_neg h]
    clear h
    induction m with
    | nil =>
      rw [List.nil_append]
      simp [List.find?_cons, hxyf]
    | cons a t ih =>
      rw [List.cons_append]
      by_cases hay : (a.1 == y) = true
      · simp only [List.find?_cons, hay]
      · have hay' : (a.1 == y) = false := by simpa using hay
        simp only [List.find?_cons, hay']
        exact ih

theorem mapGet_mem {m : List (Nat × FusedEntry)} {x : Nat} {e : FusedEntry}
    (h : mapGet m x = some e) : (x, e) ∈ m := by
  unfold mapGet at h
  cases hf : m.find? (fun p => p.1 == x) with
  | none => rw [hf] at h; simp at h
  | some p =>
    rw [hf] at h
    have hpx : p.1 = x := by simpa using List.find?_some hf
    have hpe : p.2 = e := by simpa using h
    have := List.mem_of_find?_eq_some hf
    rwa [show p = (x, e) by rw [← hpx, ← hpe]] at this

theorem mapGet_eq_none_iff {m : List (Nat × FusedEntry)} {x : Nat} :
    mapGet m x = none ↔ x ∉ m.map Prod.fst := by
  unfold mapGet
  constructor
  · intro h hmem
    obtain ⟨p, hp, hpx⟩ := List.mem_map.1 hmem
    cases hf : m.find? (fun q => q.1 == x) with
    | none =>
      rw [List.find?_eq_none] at hf
      exact hf p hp (by simp [hpx])
    | some q => rw [hf] at h; simp at h
  · intro hmem
    cases hf : m.find? (fun q => q.1 == x) with
    | none => rfl
    | some q =>
      have hq := List.mem_of_find?_eq_some hf
      have hqx : q.1 = x := by simpa using List.find?_some hf
      exact absurd (List.mem_map.2 ⟨q, hq, hqx⟩) hmem

theorem mapSet_of_not_mem {m : List (Nat × FusedEntry)} {x : Nat} (v : FusedEntry)
    (h : x ∉ m.map Prod.fst) : mapSet m x v = m ++ [(x, v)] := by
  unfold mapSet
  rw [if_neg]
  intro hany
  obtain ⟨p, hp, hpx⟩ := List.any_eq_true.1 hany
  exact h (List.mem_map.2 ⟨p, hp, by simpa using hpx⟩)

theorem keys_mapSet_mem {m : List (Nat × FusedEntry)} {x : Nat} (v : FusedEntry)
    (h : x ∈ m.map Prod.fst) :
    (mapSet m x v).map Prod.fst = m.map Prod.fst := by
  unfold mapSet
  rw [if_pos]
  · rw [List.map_map]
    apply List.map_congr_left
    intro p _
    by_cases hpx : (p.1 == x) = true
    · simp only [Function.comp]
      rw [if_pos (by simpa using hpx)]
      simpa using (by simpa using hpx : p.1 = x).symm
    · simp only [Function.comp]
      rw [if_neg (by simpa using hpx)]
  · obtain ⟨p, hp, hpx⟩ := List.mem_map.1 h
    exact List.any_eq_true.2 ⟨p, hp, by simp [hpx]⟩

theorem keys_mapSet_nodup {m : List (Nat × FusedEntry)} {x : Nat} (v : FusedEntry)
    (h : (m.map Prod.fst).Nodup) : ((mapSet m x v).map Prod.fst).Nodup := by
  by_cases hmem : x ∈ m.map Prod.fst
  · rw [keys_mapSet_mem v hmem]
    exact h
  · rw [mapSet_of_not_mem v hmem, List.map_append]
    rw [List.nodup_append]
    refine ⟨h, by simp, ?_⟩
    intro a ha hb
    have : a = x := by simpa using hb
    subst this
    exact hmem ha

theorem keywordStep_some {m : List (Nat × FusedEntry)} {r : SearchResult} {e : FusedEntry}
    (k i : Nat) (hg : mapGet m r.id = some e) :
    keywordStep k m i r =
      mapSet m r.id
        { result := { e.result with similarity := e.score + rrfScore k i }
          score := e.score + rrfScore k i } := by
  unfold keywordStep
  rw [hg]

theorem keywordStep_none {m : List (Nat × FusedEntry)} {r : SearchResult}
    (k i : Nat) (hg : mapGet m r.id = none) :
    keywordStep k m i r =
      mapSet m r.id { result := { r with similarity := rrfScore k i }, score := rrfScore k i } := by
  unfold keywordStep
  rw [hg]

theorem addVectorFrom_cons (k : Nat) (m : List (Nat × FusedEntry)) (i : Nat)
    (r : SearchResult) (rs : List SearchResult) :
    addVectorFrom k m i (r :: rs) =
      addVectorFrom k
        (mapSet m r.id { result := { r with similarity := rrfScore k i }, score := rrfScore k i })
        (i + 1) rs := rfl

theorem addKeywordFrom_cons (k : Nat) (m : List (Nat × FusedEntry)) (i : Nat)
    (r : SearchResult) (rs : List SearchResult) :
    addKeywordFrom k m i (r :: rs) = addKeywordFrom k (keywordStep k m i r) (i + 1) rs := rfl

theorem channelEntries_keys (k : Nat) : ∀ (v : List SearchResult) (i : Nat),
    (channelEntries k i v).map Prod.fst = v.map SearchResult.id := by
  intro v
  induction v with
  | nil => intro i; rfl
  | cons r rs ih =>
    intro i
    simp only [channelEntries, List.map_cons, ih (i + 1)]

theorem channelEntries_length (k : Nat) : ∀ (v : List SearchResult) (i : Nat),
    (channelEntries k i v).length = v.length := by
  intro v
  induction v with
  | nil => intro i; rfl
  | cons r rs ih =>
    intro i
    simp only [channelEntries, List.length_cons, ih (i + 1)]

theorem channelEntries_mem (k : Nat) : ∀ (v : List SearchResult) (i : Nat)
    (p : Nat × FusedEntry), p ∈ channelEntries k i v →
    ∃ j, ∃ hj : j < v.length,
      p = ((v.get ⟨j, hj⟩).id,
        { result := { v.get ⟨j, hj⟩ with similarity := rrfScore k (i + j) }
          score := rrfScore k (i + j) }) := by
  intro v
  induction v with
  | nil => intro i p hp; simp [channelEntries] at hp
  | cons r rs ih =>
    intro i p hp
    rcases List.mem_cons.1 hp with hp | hp
    · exact ⟨0, by simp, by simpa using hp⟩
    · obtain ⟨j, hj, hpe⟩ := ih (i + 1) p hp
      refine ⟨j + 1, by simpa using Nat.succ_lt_succ hj, ?_⟩
      have harith : i + 1 + j = i + (j + 1) := by omega
      rw [hpe, harith]
      rfl

theorem channelEntries_mapGet (k : Nat) : ∀ (v : List SearchResult) (i : Nat),
    (v.map SearchResult.id).Nodup → ∀ (j : Nat) (hj : j < v.length),
    mapGet (channelEntries k i v) (v.get ⟨j, hj⟩).id =
      some { result := { v.get ⟨j, hj⟩ with similarity := rrfScore k (i + j) }
             score := rrfScore k (i + j) } := by
  intro v
  induction v with
  | nil => intro i _ j hj; simp at hj
  | cons r rs ih =>
    intro i hv j hj
    cases j with
    | zero =>
      show mapGet ((r.id, _) :: channelEntries k (i + 1) rs) r.id = _
      unfold mapGet
      rw [List.find?_cons_of_pos _ (by simp)]
      rfl
    | succ j' =>
      have hj' : j' < rs.length := by simpa using Nat.lt_of_succ_lt_succ hj
      have hx : ((r :: rs).get ⟨j' + 1, hj⟩) = rs.get ⟨j', hj'⟩ := rfl
      have hxid : (rs.get ⟨j', hj'⟩).id ∈ rs.map SearchResult.id :=
        List.mem_map.2 ⟨rs.get ⟨j', hj'⟩, List.get_mem rs j' hj', rfl⟩
      have hv2 : r.id ∉ rs.map SearchResult.id ∧ (rs.map SearchResult.id).Nodup := by
        rw [List.map_cons, List.nodup_cons] at hv
        exact hv
      have hne : (rs.get ⟨j', hj'⟩).id ≠ r.id := by
        intro hh
        exact hv2.1 (hh ▸ hxid)
      rw [hx]
      show mapGet ((r.id, _) :: channelEntries k (i + 1) rs) (rs.get ⟨j', hj'⟩).id = _
      unfold mapGet
      rw [List.find?_cons_of_neg _ (by simpa using hne.symm)]
      have := ih (i + 1) hv2.2 j' hj'
      unfold mapGet at this
      rw [this]
      have harith : i + 1 + j' = i + (j' + 1) := by omega
      rw [harith]

theorem addVectorFrom_eq_append (k : Nat) : ∀ (v : List SearchResult)
    (m : List (Nat × FusedEntry)) (i : Nat),
    (∀ r ∈ v, r.id ∉ m.map Prod.fst) → (v.map SearchResult.id).Nodup →
    addVectorFrom k m i v = m ++ channelEntries k i v := by
  intro v
  induction v with
  | nil => intro m i _ _; simp [addVectorFrom, channelEntries]
  | cons r rs ih =>
    intro m i hdisj hv
    have hv2 : r.id ∉ rs.map SearchResult.id ∧ (rs.map SearchResult.id).Nodup := by
      rw [List.map_cons, List.nodup_cons] at hv
      exact hv
    have hrid : r.id ∉ m.map Prod.fst := hdisj r (List.mem_cons_self r rs)
    rw [addVectorFrom_cons, mapSet_of_not_mem _ hrid]
    rw [ih (m ++ [(r.id, _)]) (i + 1) ?_ hv2.2]
    · rw [List.append_assoc]
      rfl
    · intro r2 hr2
      rw [List.map_append, List.mem_append]
      rintro (hh | hh)
      · exact hdisj r2 (List.mem_cons_of_mem r hr2) hh
      · have : r2.id = r.id := by simpa using hh
        exact hv2.1 (this ▸ List.mem_map.2 ⟨r2, hr2, rfl⟩)

theorem addKeywordFrom_eq_append (k : Nat) : ∀ (w : List SearchResult)
    (m : List (Nat × FusedEntry)) (i : Nat),
    (∀ r ∈ w, r.id ∉ m.map Prod.fst) → (w.map SearchResult.id).Nodup →
    addKeywordFrom k m i w = m ++ channelEntries k i w := by
  intro w
  induction w with
  | nil => intro m i _ _; simp [addKeywordFrom, channelEntries]
  | cons r rs ih =>
    intro m i hdisj hw
    have hw2 : r.id ∉ rs.map SearchResult.id ∧ (rs.map SearchResult.id).Nodup := by
      rw [List.map_cons, List.nodup_cons] at hw
      exact hw
    have hrid : r.id ∉ m.map Prod.fst := hdisj r (List.mem_cons_self r rs)
    have hget : mapGet m r.id = none := mapGet_eq_none_iff.2 hrid
    rw [addKeywordFrom_cons, keywordStep_none k i hget, mapSet_of_not_mem _ hrid]
    rw [ih (m ++ [(r.id, _)]) (i + 1) ?_ hw2.2]
    · rw [List.append_assoc]
      rfl
    · intro r2 hr2
      rw [List.map_append, List.mem_append]
      rintro (hh | hh)
      · exact hdisj r2 (List.mem_cons_of_mem r hr2) hh
      · have : r2.id = r.id := by simpa using hh
        exact hw2.1 (this ▸ List.mem_map.2 ⟨r2, hr2, rfl⟩)

theorem addKeywordFrom_mapGet_not_mem (k : Nat) : ∀ (w : List SearchResult)
    (m : List (Nat × FusedEntry)) (i : Nat) (x : Nat),
    x ∉ w.map SearchResult.id →
    mapGet (addKeywordFrom k m i w) x = mapGet m x := by
  intro w
  induction w with
  | nil => intro m i x _; rfl
  | cons r rs ih =>
    intro m i x hx
    have hxr : x ≠ r.id := by
      intro hh
      exact hx (hh ▸ List.mem_map.2 ⟨r, List.mem_cons_self r rs, rfl⟩)
    have hxrs : x ∉ rs.map SearchResult.id := by
      intro hh
      exact hx (by rw [List.map_cons]; exact List.mem_cons_of_mem _ hh)
    rw [addKeywordFrom_cons, ih _ (i + 1) x hxrs]
    cases hgr : mapGet m r.id with
    | some e => rw [keywordStep_some k i hgr, mapGet_mapSet_ne _ _ _ _ hxr]
    | none => rw [keywordStep_none k i hgr, mapGet_mapSet_ne _ _ _ _ hxr]

theorem addKeywordFrom_mapGet_at_some (k : Nat) : ∀ (w : List SearchResult)
    (m : List (Nat × FusedEntry)) (i : Nat) (j : Nat) (hj : j < w.length)
    (e : FusedEntry), (w.map SearchResult.id).Nodup →
    mapGet m (w.get ⟨j, hj⟩).id = some e →
    mapGet (addKeywordFrom k m i w) (w.get ⟨j, hj⟩).id =
      some { result := { e.result with similarity := e.score + rrfScore k (i + j) }
             score := e.score + rrfScore k (i + j) } := by
  intro w
  induction w with
  | nil => intro m i j hj e _ _; simp at hj
  | cons r rs ih =>
    intro m i j hj e hw hg
    have hw2 : r.id ∉ rs.map SearchResult.id ∧ (rs.map SearchResult.id).Nodup := by
      rw [List.map_cons, List.nodup_cons] at hw
      exact hw
    cases j with
    | zero =>
      have hx : ((r :: rs).get ⟨0, hj⟩) = r := rfl
      rw [hx] at hg ⊢
      rw [addKeywordFrom_cons, keywordStep_some k i hg]
      rw [addKeywordFrom_mapGet_not_mem k rs _ (i + 1) r.id hw2.1]
      rw [mapGet_mapSet_self]
      rfl
    | succ j' =>
      have hj' : j' < rs.length := by simpa using Nat.lt_of_succ_lt_succ hj
      have hx : ((r :: rs).get ⟨j' + 1, hj⟩) = rs.get ⟨j', hj'⟩ := rfl
      rw [hx] at hg ⊢
      have hxid : (rs.get ⟨j', hj'⟩).id ∈ rs.map SearchResult.id :=
        List.mem_map.2 ⟨rs.get ⟨j', hj'⟩, List.get_mem rs j' hj', rfl⟩
      have hne : (rs.get ⟨j', hj'⟩).id ≠ r.id := by
        intro hh
        exact hw2.1 (hh ▸ hxid)
      have harith : i + 1 + j' = i + (j' + 1) := by omega
      have hgall : ∀ val : FusedEntry,
          mapGet (mapSet m r.id val) (rs.get ⟨j', hj'⟩).id = some e := by
        intro val
        rw [mapGet_mapSet_ne _ _ _ _ hne]
        exact hg
      rw [addKeywordFrom_cons]
      cases hgr : mapGet m r.id with
      | some e2 =>
        rw [keywordStep_some k i hgr]
        rw [ih _ (i + 1) j' hj' e hw2.2 (hgall _), harith]
      | none =>
        rw [keywordStep_none k i hgr]
        rw [ih _ (i + 1) j' hj' e hw2.2 (hgall _), harith]

theorem addVectorFrom_pred {P : Nat × FusedEntry → Prop} (k : Nat) :
    ∀ (v : List SearchResult) (m : List (Nat × FusedEntry)) (i : Nat),
    (∀ p ∈ m, P p) →
    (∀ r ∈ v, ∀ j : Nat,
      P (r.id, { result := { r with similarity := rrfScore k j }, score := rrfScore k j })) →
    ∀ p ∈ addVectorFrom k m i v, P p := by
  intro v
  induction v with
  | nil => intro m i hm _ p hp; exact hm p hp
  | cons r rs ih =>
    intro m i hm hv p hp
    rw [addVectorFrom_cons] at hp
    refine ih _ (i + 1) ?_ (fun r2 h2 j => hv r2 (List.mem_cons_of_mem r h2) j) p hp
    intro q hq
    rcases mem_mapSet hq with hq | hq
    · subst hq
      exact hv r (List.mem_cons_self r rs) i
    · exact hm q hq

theorem addKeywordFrom_pred {P : Nat × FusedEntry → Prop} (k : Nat) :
    ∀ (w : List SearchResult) (m : List (Nat × FusedEntry)) (i : Nat),
    (∀ p ∈ m, P p) →
    (∀ r ∈ w, ∀ j : Nat,
      P (r.id, { result := { r with similarity := rrfScore k j }, score := rrfScore k j })) →
    (∀ x : Nat, ∀ e : FusedEntry, ∀ j : Nat, P (x, e) →
      P (x, { result := { e.result with similarity := e.score + rrfScore k j }
              score := e.score + rrfScore k j })) →
    ∀ p ∈ addKeywordFrom k m i w, P p := by
  intro w
  induction w with
  | nil => intro m i hm _ _ p hp; exact hm p hp
  | cons r rs ih =>
    intro m i hm hw hupd p hp
    rw [addKeywordFrom_cons] at hp
    refine ih _ (i + 1) ?_ (fun r2 h2 j => hw r2 (List.mem_cons_of_mem r h2) j) hupd p hp
    intro q hq
    cases hgr : mapGet m r.id with
    | some e =>
      rw [keywordStep_some k i hgr] at hq
      rcases mem_mapSet hq with hq | hq
      · subst hq
        exact hupd r.id e i (hm _ (mapGet_mem hgr))
      · exact hm q hq
    | none =>
      rw [keywordStep_none k i hgr] at hq
      rcases mem_mapSet hq with hq | hq
      · subst hq
        exact hw r (List.mem_cons_self r rs) i
      · exact hm q hq

theorem rrfMerged_pred {P : Nat × FusedEntry → Prop}
    (v w : List SearchResult) (k : Nat)
    (hv : ∀ r ∈ v, ∀ j : Nat,
      P (r.id, { result := { r with similarity := rrfScore k j }, score := rrfScore k j }))
    (hw : ∀ r ∈ w, ∀ j : Nat,
      P (r.id, { result := { r with similarity := rrfScore k j }, score := rrfScore k j }))
    (hupd : ∀ x : Nat, ∀ e : FusedEntry, ∀ j : Nat, P (x, e) →
      P (x, { result := { e.result with similarity := e.score + rrfScore k j }
              score := e.score + rrfScore k j })) :
    ∀ p ∈ rrfMerged v w k, P p := by
  unfold rrfMerged
  exact addKeywordFrom_pred k w _ 0
    (addVectorFrom_pred k v [] 0 (by simp) hv) hw hupd

theorem rrfMerged_wf (v w : List SearchResult) (k : Nat) :
    ∀ p ∈ rrfMerged v w k,
      p.2.result.similarity = p.2.score ∧ p.2.result.id = p.1 := by
  exact rrfMerged_pred v w k (fun r _ j => ⟨rfl, rfl⟩) (fun r _ j => ⟨rfl, rfl⟩)
    (fun x e j he => ⟨rfl, he.2⟩)

theorem rrfMerged_pos (v w : List SearchResult) (k : Nat) :
    ∀ p ∈ rrfMerged v w k, 0 < p.2.score := by
  exact rrfMerged_pred v w k (fun r _ j => rrfScore_pos k j) (fun r _ j => rrfScore_pos k j)
    (fun x e j he => add_pos he (rrfScore_pos k j))

theorem rrfMerged_safe (v w : List SearchResult) (k : Nat)
    (hv : ∀ r ∈ v, r.is_customer_safe = true) (hw : ∀ r ∈ w, r.is_customer_safe = true) :
    ∀ p ∈ rrfMerged v w k, p.2.result.is_customer_safe = true := by
  exact rrfMerged_pred v w k (fun r hr j => hv r hr) (fun r hr j => hw r hr)
    (fun x e j he => he)

theorem addVectorFrom_keys_nodup (k : Nat) : ∀ (v : List SearchResult)
    (m : List (Nat × FusedEntry)), (m.map Prod.fst).Nodup → ∀ i,
    ((addVectorFrom k m i v).map Prod.fst).Nodup := by
  intro v
  induction v with
  | nil => intro m hm i; exact hm
  | cons r rs ih =>
    intro m hm i
    rw [addVectorFrom_cons]
    exact ih _ (keys_mapSet_nodup _ hm) (i + 1)

theorem addKeywordFrom_keys_nodup (k : Nat) : ∀ (w : List SearchResult)
    (m : List (Nat × FusedEntry)), (m.map Prod.fst).Nodup → ∀ i,
    ((addKeywordFrom k m i w).map Prod.fst).Nodup := by
  intro w
  induction w with
  | nil => intro m hm i; exact hm
  | cons r rs ih =>
    intro m hm i
    rw [addKeywordFrom_cons]
    refine ih _ ?_ (i + 1)
    cases hgr : mapGet m r.id with
    | some e => rw [keywordStep_some k i hgr]; exact keys_mapSet_nodup _ hm
    | none => rw [keywordStep_none k i hgr]; exact keys_mapSet_nodup _ hm

theorem rrfMerged_keys_nodup (v w : List SearchResult) (k : Nat) :
    ((rrfMerged v w k).map Prod.fst).Nodup := by
  unfold rrfMerged
  exact addKeywordFrom_keys_nodup k w _ (addVectorFrom_keys_nodup k v [] (by simp) 0) 0

theorem addVectorFrom_ne_nil (k : Nat) : ∀ (v : List SearchResult)
    (m : List (Nat × FusedEntry)) (i : Nat), m ≠ [] ∨ v ≠ [] →
    addVectorFrom k m i v ≠ [] := by
  intro v
  induction v with
  | nil =>
    intro m i h
    rcases h with h | h
    · exact h
    · exact absurd rfl h
  | cons r rs ih =>
    intro m i _
    rw [addVectorFrom_cons]
    exact ih _ (i + 1) (Or.inl (mapSet_ne_nil _ _ _))

theorem addKeywordFrom_ne_nil (k : Nat) : ∀ (w : List SearchResult)
    (m : List (Nat × FusedEntry)) (i : Nat), m ≠ [] ∨ w ≠ [] →
    addKeywordFrom k m i w ≠ [] := by
  intro w
  induction w with
  | nil =>
    intro m i h
    rcases h with h | h
    · exact h
    · exact absurd rfl h
  | cons r rs ih =>
    intro m i _
    rw [addKeywordFrom_cons]
    refine ih _ (i + 1) (Or.inl ?_)
    cases hgr : mapGet m r.id with
    | some e => rw [keywordStep_some k i hgr]; exact mapSet_ne_nil _ _ _
    | none => rw [keywordStep_none k i hgr]; exact mapSet_ne_nil _ _ _

theorem rrfMerged_ne_nil (v w : List SearchResult) (k : Nat)
    (h : v ≠ [] ∨ w ≠ []) : rrfMerged v w k ≠ [] := by
  unfold rrfMerged
  rcases h with h | h
  · exact addKeywordFrom_ne_nil k w _ 0 (Or.inl (addVectorFrom_ne_nil k v [] 0 (Or.inr h)))
  · exact addKeywordFrom_ne_nil k w _ 0 (Or.inr h)

/-- C3: rank fusion correctness.  With duplicate-free ranked inputs: (a) for
id-disjoint inputs the fusion map is exactly the semantic-channel entries
followed by the lexical-channel entries, the fused list has `m + n` items
with pairwise-distinct fragment ids, and every fused entry carries the raw
score `1 / (k + rank + 1)` from its originating list; (b) a fragment at rank
`i` in the semantic list and rank `j` in the lexical list yields exactly one
fused entry, scored `1/(k+i+1) + 1/(k+j+1)`; (c) the fused list is sorted by
descending accumulated score; (d) the sort is stable over the insertion
order of the fusion map (semantic-channel order first), breaking ties by
that order. -/
theorem C3_fusion_correctness (v w : List SearchResult) (k : Nat)
    (hv : (v.map SearchResult.id).Nodup) (hw : (w.map SearchResult.id).Nodup) :
    ((∀ a ∈ v, ∀ b ∈ w, a.id ≠ b.id) →
      rrfMerged v w k = channelEntries k 0 v ++ channelEntries k 0 w ∧
      (rrfSorted v w k).length = v.length + w.length ∧
      ((rrfSorted v w k).map (fun e => e.result.id)).Nodup ∧
      (∀ e ∈ rrfSorted v w k,
        (∃ i, ∃ hi : i < v.length,
          e.result.id = (v.get ⟨i, hi⟩).id ∧ e.score = rrfScore k i) ∨
        (∃ j, ∃ hj : j < w.length,
          e.result.id = (w.get ⟨j, hj⟩).id ∧ e.score = rrfScore k j))) ∧
    (∀ i j (hi : i < v.length) (hj : j < w.length),
      (v.get ⟨i, hi⟩).id = (w.get ⟨j, hj⟩).id →
      (rrfSorted v w k).countP (fun e => e.result.id == (v.get ⟨i, hi⟩).id) = 1 ∧
      ∃ e ∈ rrfSorted v w k, e.result.id = (v.get ⟨i, hi⟩).id ∧
        e.score = rrfScore k i + rrfScore k j) ∧
    List.Pairwise (fun a b => b.score ≤ a.score) (rrfSorted v w k) ∧
    (∀ a b : FusedEntry, [a, b].Sublist ((rrfMerged v w k).map (fun p => p.2)) →
      b.score ≤ a.score → [a, b].Sublist (rrfSorted v w k)) := by
  have hperm : (rrfSorted v w k).Perm ((rrfMerged v w k).map (fun p => p.2)) :=
    List.perm_insertionSort entryGe _
  refine ⟨?_, ?_, ?_, ?_⟩
  · intro hdisj
    have hA : rrfMerged v w k = channelEntries k 0 v ++ channelEntries k 0 w := by
      unfold rrfMerged
      rw [addVectorFrom_eq_append k v [] 0 (by simp) hv, List.nil_append]
      rw [addKeywordFrom_eq_append k w _ 0 ?_ hw]
      intro r hr
      rw [channelEntries_keys]
      intro hmem
      obtain ⟨a, ha, haid⟩ := List.mem_map.1 hmem
      exact hdisj a ha r hr haid
    refine ⟨hA, ?_, ?_, ?_⟩
    · rw [hperm.length_eq, List.length_map, hA, List.length_append,
        channelEntries_length, channelEntries_length]
    · have hkeys : ((rrfMerged v w k).map (fun e => e.2.result.id))
          = (rrfMerged v w k).map Prod.fst := by
        apply List.map_congr_left
        intro p hp
        exact (rrfMerged_wf v w k p hp).2
      have hmapped : ((rrfSorted v w k).map (fun e => e.result.id)).Perm
          ((rrfMerged v w k).map Prod.fst) := by
        have := hperm.map (fun e => e.result.id)
        rw [List.map_map] at this
        rw [← hkeys]
        exact this
      exact (hmapped.nodup_iff).2 (rrfMerged_keys_nodup v w k)
    · intro e he
      have hmem : e ∈ (rrfMerged v w k).map (fun p => p.2) := hperm.mem_iff.1 he
      obtain ⟨p, hp, hpe⟩ := List.mem_map.1 hmem
      rw [hA] at hp
      rcases List.mem_append.1 hp with hp | hp
      · obtain ⟨i, hi, hpeq⟩ := channelEntries_mem k v 0 p hp
        left
        refine ⟨i, hi, ?_, ?_⟩
        · rw [← hpe, hpeq]
        · rw [← hpe, hpeq]
          show rrfScore k (0 + i) = rrfScore k i
          rw [Nat.zero_add]
      · obtain ⟨j, hj, hpeq⟩ := channelEntries_mem k w 0 p hp
        right
        refine ⟨j, hj, ?_, ?_⟩
        · rw [← hpe, hpeq]
        · rw [← hpe, hpeq]
          show rrfScore k (0 + j) = rrfScore k j
          rw [Nat.zero_add]
  · intro i j hi hj heq
    have hvec : addVectorFrom k [] 0 v = channelEntries k 0 v := by
      rw [addVectorFrom_eq_append k v [] 0 (by simp) hv, List.nil_append]
    have hgv : mapGet (channelEntries k 0 v) (w.get ⟨j, hj⟩).id =
        some { result := { v.get ⟨i, hi⟩ with similarity := rrfScore k (0 + i) }
               score := rrfScore k (0 + i) } := by
      rw [← heq]
      exact channelEntries_mapGet k v 0 hv i hi
    have hg2 : mapGet (rrfMerged v w k) (w.get ⟨j, hj⟩).id =
        some { result := { v.get ⟨i, hi⟩ with
                 similarity := rrfScore k (0 + i) + rrfScore k (0 + j) }
               score := rrfScore k (0 + i) + rrfScore k (0 + j) } := by
      unfold rrfMerged
      rw [hvec]
      exact addKeywordFrom_mapGet_at_some k w _ 0 j hj _ hw hgv
    have hz : (0 : Nat) + i = i := Nat.zero_add i
    have hzj : (0 : Nat) + j = j := Nat.zero_add j
    rw [hz, hzj] at hg2
    have hpmem : ((w.get ⟨j, hj⟩).id,
        ({ result := { v.get ⟨i, hi⟩ with
             similarity := rrfScore k i + rrfScore k j }
           score := rrfScore k i + rrfScore k j } : FusedEntry)) ∈ rrfMerged v w k :=
      mapGet_mem hg2
    constructor
    · rw [hperm.countP_eq, List.countP_map]
      have hcongr : (rrfMerged v w k).countP
            ((fun e => e.result.id == (v.get ⟨i, hi⟩).id) ∘ (fun p => p.2))
          = (rrfMerged v w k).countP (fun p => p.1 == (v.get ⟨i, hi⟩).id) := by
        apply List.countP_congr
        intro p hp
        have hid := (rrfMerged_wf v w k p hp).2
        simp only [Function.comp]
        rw [hid]
      rw [hcongr]
      have hcnt : (rrfMerged v w k).countP (fun p => p.1 == (v.get ⟨i, hi⟩).id)
          = ((rrfMerged v w k).map Prod.fst).count (v.get ⟨i, hi⟩).id := by
        rw [List.count, List.countP_map]
        rfl
      rw [hcnt]
      apply List.count_eq_one_of_mem (rrfMerged_keys_nodup v w k)
      rw [heq]
      exact List.mem_map.2 ⟨_, hpmem, rfl⟩
    · refine ⟨_, hperm.mem_iff.2 (List.mem_map.2 ⟨_, hpmem, rfl⟩), ?_, rfl⟩
      rw [heq]
  · exact List.sorted_insertionSort entryGe _
  · intro a b hsub hscore
    exact List.pair_sublist_insertionSort hscore hsub

/-- Closed instance of `C3_fusion_correctness` at the spec's end-to-end
scenario A shape: semantic list with ids 1, 2 and lexical list with ids 2, 3
(fragment 2 in both channels). -/
theorem C3_fusion_correctness_witness :
    (((([sampleSafe, sampleSafe2] : List SearchResult)).map SearchResult.id).Nodup ∧
      ((([sampleSafe2, sampleInternal] : List SearchResult)).map SearchResult.id).Nodup) ∧
    (((∀ a ∈ ([sampleSafe, sampleSafe2] : List SearchResult),
        ∀ b ∈ ([sampleSafe2, sampleInternal] : List SearchResult), a.id ≠ b.id) →
      rrfMerged [sampleSafe, sampleSafe2] [sampleSafe2, sampleInternal] 60 =
        channelEntries 60 0 [sampleSafe, sampleSafe2]
          ++ channelEntries 60 0 [sampleSafe2, sampleInternal] ∧
      (rrfSorted [sampleSafe, sampleSafe2] [sampleSafe2, sampleInternal] 60).length =
        ([sampleSafe, sampleSafe2] : List SearchResult).length
          + ([sampleSafe2, sampleInternal] : List SearchResult).length ∧
      ((rrfSorted [sampleSafe, sampleSafe2] [sampleSafe2, sampleInternal] 60).map
        (fun e => e.result.id)).Nodup ∧
      (∀ e ∈ rrfSorted [sampleSafe, sampleSafe2] [sampleSafe2, sampleInternal] 60,
        (∃ i, ∃ hi : i < ([sampleSafe, sampleSafe2] : List SearchResult).length,
          e.result.id = (([sampleSafe, sampleSafe2] : List SearchResult).get ⟨i, hi⟩).id ∧
            e.score = rrfScore 60 i) ∨
        (∃ j, ∃ hj : j < ([sampleSafe2, sampleInternal] : List SearchResult).length,
          e.result.id = (([sampleSafe2, sampleInternal] : List SearchResult).get ⟨j, hj⟩).id ∧
            e.score = rrfScore 60 j))) ∧
    (∀ i j (hi : i < ([sampleSafe, sampleSafe2] : List SearchResult).length)
        (hj : j < ([sampleSafe2, sampleInternal] : List SearchResult).length),
      (([sampleSafe, sampleSafe2] : List SearchResult).get ⟨i, hi⟩).id =
        (([sampleSafe2, sampleInternal] : List SearchResult).get ⟨j, hj⟩).id →
      (rrfSorted [sampleSafe, sampleSafe2] [sampleSafe2, sampleInternal] 60).countP
        (fun e => e.result.id ==
          (([sampleSafe, sampleSafe2] : List SearchResult).get ⟨i, hi⟩).id) = 1 ∧
      ∃ e ∈ rrfSorted [sampleSafe, sampleSafe2] [sampleSafe2, sampleInternal] 60,
        e.result.id = (([sampleSafe, sampleSafe2] : List SearchResult).get ⟨i, hi⟩).id ∧
          e.score = rrfScore 60 i + rrfScore 60 j) ∧
    List.Pairwise (fun a b => b.score ≤ a.score)
      (rrfSorted [sampleSafe, sampleSafe2] [sampleSafe2, sampleInternal] 60) ∧
    (∀ a b : FusedEntry,
      [a, b].Sublist ((rrfMerged [sampleSafe, sampleSafe2] [sampleSafe2, sampleInternal]
        60).map (fun p => p.2)) →
      b.score ≤ a.score →
      [a, b].Sublist (rrfSorted [sampleSafe, sampleSafe2] [sampleSafe2, sampleInternal] 60))) :=
  ⟨⟨by decide, by decide⟩,
    C3_fusion_correctness [sampleSafe, sampleSafe2] [sampleSafe2, sampleInternal] 60
      (by decide) (by decide)⟩

/-- C4: normalization.  For any non-empty pair of input lists the fused
result is non-empty, its maximum similarity is exactly 1, and every
similarity lies in (0, 1]; empty inputs give the empty list (the max-score
divisor is guarded, so no division by zero occurs). -/
theorem C4_normalization (v w : List SearchResult) (k : Nat)
    (h : v ≠ [] ∨ w ≠ []) :
    reciprocalRankFusion v w k ≠ [] ∧
    (∃ r ∈ reciprocalRankFusion v w k, r.similarity = 1) ∧
    (∀ r ∈ reciprocalRankFusion v w k, 0 < r.similarity ∧ r.similarity ≤ 1) ∧
    reciprocalRankFusion [] [] k = [] := by
  have hperm : (rrfSorted v w k).Perm ((rrfMerged v w k).map (fun p => p.2)) :=
    List.perm_insertionSort entryGe _
  have hfacts : ∀ e ∈ rrfSorted v w k, 0 < e.score ∧ e.result.similarity = e.score := by
    intro e he
    obtain ⟨p, hp, hpe⟩ := List.mem_map.1 (hperm.mem_iff.1 he)
    subst hpe
    exact ⟨rrfMerged_pos v w k p hp, (rrfMerged_wf v w k p hp).1⟩
  have hne : rrfSorted v w k ≠ [] := by
    intro hnil
    have hlen := hperm.length_eq
    rw [hnil] at hlen
    have : rrfMerged v w k = [] := by
      have hlen2 := hlen.symm
      rw [List.length_map] at hlen2
      exact List.length_eq_zero.1 (by simpa using hlen2)
    exact rrfMerged_ne_nil v w k h this
  obtain ⟨e0, rest, heq⟩ : ∃ e0 rest, rrfSorted v w k = e0 :: rest := by
    cases hc : rrfSorted v w k with
    | nil => exact absurd hc hne
    | cons a t => exact ⟨a, t, rfl⟩
  have he0 : e0 ∈ rrfSorted v w k := by rw [heq]; exact List.mem_cons_self e0 rest
  have h0pos : 0 < e0.score := (hfacts e0 he0).1
  have hscore0 : (e0.score == 0) = false := by
    simpa using ne_of_gt h0pos
  have hsorted : List.Pairwise entryGe (rrfSorted v w k) :=
    List.sorted_insertionSort entryGe _
  have hmax : ∀ e ∈ rrfSorted v w k, e.score ≤ e0.score := by
    intro e he
    rw [heq] at he
    rcases List.mem_cons.1 he with he | he
    · subst he
      exact le_refl _
    · rw [heq] at hsorted
      exact List.rel_of_pairwise_cons hsorted he
  have hbody : reciprocalRankFusion v w k =
      (rrfSorted v w k).map
        (fun item => { item.result with
          similarity := item.result.similarity / e0.score }) := by
    unfold reciprocalRankFusion
    rw [heq]
    simp only [List.head?_cons, hscore0, Bool.false_eq_true, if_false]
  refine ⟨?_, ?_, ?_, rfl⟩
  · rw [hbody]
    intro hnil
    rw [List.map_eq_nil_iff] at hnil
    exact hne hnil
  · refine ⟨{ e0.result with similarity := e0.result.similarity / e0.score }, ?_, ?_⟩
    · rw [hbody]
      exact List.mem_map.2 ⟨e0, he0, rfl⟩
    · show e0.result.similarity / e0.score = 1
      rw [(hfacts e0 he0).2]
      exact div_self (ne_of_gt h0pos)
  · intro r hr
    rw [hbody] at hr
    obtain ⟨e, he, her⟩ := List.mem_map.1 hr
    have hepos := (hfacts e he).1
    have hesim := (hfacts e he).2
    constructor
    · rw [← her]
      show 0 < e.result.similarity / e0.score
      rw [hesim]
      exact div_pos hepos h0pos
    · rw [← her]
      show e.result.similarity / e0.score ≤ 1
      rw [hesim]
      rw [div_le_one h0pos]
      exact hmax e he

/-- Closed instance of `C4_normalization` at a concrete non-empty input. -/
theorem C4_normalization_witness :
    (([sampleSafe] : List SearchResult) ≠ [] ∨ ([] : List SearchResult) ≠ []) ∧
    (reciprocalRankFusion [sampleSafe] [] 60 ≠ [] ∧
    (∃ r ∈ reciprocalRankFusion [sampleSafe] [] 60, r.similarity = 1) ∧
    (∀ r ∈ reciprocalRankFusion [sampleSafe] [] 60, 0 < r.similarity ∧ r.similarity ≤ 1) ∧
    reciprocalRankFusion [] [] 60 = []) :=
  ⟨Or.inl (List.cons_ne_nil _ _),
    C4_normalization [sampleSafe] [] 60 (Or.inl (List.cons_ne_nil _ _))⟩

theorem hybridVectorWhere_safe {channelId : Option String} {f : Fragment}
    (h : hybridVectorWhere true channelId f = true) : f.is_customer_safe = true := by
  unfold hybridVectorWhere at h
  simp only [Bool.and_eq_true] at h
  simpa using h.1.2

theorem hybridKeywordWhere_safe {query : String} {st : Store} {channelId : Option String}
    {f : Fragment} (h : hybridKeywordWhere query st true channelId f = true) :
    f.is_customer_safe = true := by
  unfold hybridKeywordWhere at h
  simp only [Bool.and_eq_true] at h
  simpa using h.1.2

theorem knowledgeWhere_safe {truthOnly : Bool} {channelId : Option String} {f : Fragment}
    (h : knowledgeWhere true truthOnly channelId f = true) : f.is_customer_safe = true := by
  unfold knowledgeWhere at h
  simp only [Bool.and_eq_true] at h
  simpa using h.1.1.2

theorem runVectorQuery_safe (st : Store) (emb : List ℚ) (channelId : Option String)
    (lim : Nat) : ∀ r ∈ runVectorQuery st emb true channelId lim,
    r.is_customer_safe = true := by
  intro r hr
  unfold runVectorQuery at hr
  obtain ⟨f, hf, hfr⟩ := List.mem_map.1 hr
  have hf2 : f ∈ List.insertionSort (fun a b => st.dist emb a ≤ st.dist emb b)
      (st.table.filter (hybridVectorWhere true channelId)) := List.mem_of_mem_take hf
  have hf3 : f ∈ st.table.filter (hybridVectorWhere true channelId) :=
    (List.perm_insertionSort _ _).mem_iff.1 hf2
  have hsafe := hybridVectorWhere_safe (List.of_mem_filter hf3)
  rw [← hfr]
  exact hsafe

theorem runKeywordQuery_safe (st : Store) (query : String) (channelId : Option String)
    (lim : Nat) : ∀ r ∈ runKeywordQuery st query true channelId lim,
    r.is_customer_safe = true := by
  intro r hr
  unfold runKeywordQuery at hr
  obtain ⟨f, hf, hfr⟩ := List.mem_map.1 hr
  have hf2 : f ∈ List.insertionSort (fun a b => st.tsRank query b ≤ st.tsRank query a)
      (st.table.filter (hybridKeywordWhere query st true channelId)) :=
    List.mem_of_mem_take hf
  have hf3 : f ∈ st.table.filter (hybridKeywordWhere query st true channelId) :=
    (List.perm_insertionSort _ _).mem_iff.1 hf2
  have hsafe := hybridKeywordWhere_safe (List.of_mem_filter hf3)
  rw [← hfr]
  exact hsafe

theorem reciprocalRankFusion_safe (v w : List SearchResult) (k : Nat)
    (hv : ∀ r ∈ v, r.is_customer_safe = true) (hw : ∀ r ∈ w, r.is_customer_safe = true) :
    ∀ r ∈ reciprocalRankFusion v w k, r.is_customer_safe = true := by
  intro r hr
  simp only [reciprocalRankFusion] at hr
  obtain ⟨e, he, her⟩ := List.mem_map.1 hr
  have hperm : (rrfSorted v w k).Perm ((rrfMerged v w k).map (fun p => p.2)) :=
    List.perm_insertionSort entryGe _
  obtain ⟨p, hp, hpe⟩ := List.mem_map.1 (hperm.mem_iff.1 he)
  have hsafe := rrfMerged_safe v w k hv hw p hp
  rw [← her]
  show e.result.is_customer_safe = true
  rw [hpe] at hsafe
  exact hsafe

theorem hybridSearch_safe (st : Store) (emb : List ℚ) (query : String)
    (options : SearchOptions) (hopt : options.customerSafeOnly = some true) :
    ∀ rs, hybridSearch st (Except.ok emb) query options = Except.ok rs →
    ∀ r ∈ rs, r.is_customer_safe = true := by
  intro rs hrs r hr
  unfold hybridSearch at hrs
  rw [hopt] at hrs
  simp only [Option.getD_some] at hrs
  have hrs2 := Except.ok.inj hrs
  rw [← hrs2] at hr
  have hr2 := List.mem_of_mem_take hr
  have hr3 := List.mem_of_mem_filter hr2
  exact reciprocalRankFusion_safe _ _ _
    (runVectorQuery_safe st emb options.channelId _)
    (runKeywordQuery_safe st query options.channelId _) r hr3

theorem searchKnowledge_safe (st : Store) (emb : List ℚ) (query : String)
    (options : SearchOptions) (hopt : options.customerSafeOnly = some true) :
    ∀ rs, searchKnowledge st (Except.ok emb) query options = Except.ok rs →
    ∀ r ∈ rs, r.is_customer_safe = true := by
  intro rs hrs r hr
  unfold searchKnowledge at hrs
  rw [hopt] at hrs
  simp only [Option.getD_some] at hrs
  have hrs2 := Except.ok.inj hrs
  rw [← hrs2] at hr
  have hr2 := List.mem_of_mem_take hr
  have hr3 := List.mem_of_mem_filter hr2
  obtain ⟨f, hf, hfr⟩ := List.mem_map.1 hr3
  have hf3 : f ∈ st.table.filter (knowledgeWhere true (options.sourceOfTruthOnly.getD false)
      options.channelId) :=
    (List.perm_insertionSort _ _).mem_iff.1 (List.mem_of_mem_take hf)
  have hsafe := knowledgeWhere_safe (List.of_mem_filter hf3)
  rw [← hfr]
  exact hsafe

theorem answerBranch_not_policyBlocked (results : List SearchResult)
    (relevanceCheck : String) (hall : ∀ r ∈ results, r.is_customer_safe = true) :
    answerBranch results Mode.customer relevanceCheck ≠ AnswerOutcome.policyBlocked := by
  unfold answerBranch
  by_cases h0 : (results.length == 0) = true
  · simp [h0]
  · have hfil : results.filter (fun r => r.is_customer_safe) = results :=
      List.filter_eq_self.2 (fun a ha => hall a ha)
    have hlen : ¬ results.length = 0 := by simpa using h0
    by_cases hrel : isRelevantResponse relevanceCheck = true
    · simp [h0, relevantFor, hfil, hlen, hrel]
    · simp [h0, relevantFor, hfil, hlen, hrel]

theorem hybridSearch_unsafe_table (st : Store) (emb : List ℚ) (query : String)
    (options : SearchOptions) (hopt : options.customerSafeOnly = some true)
    (htab : ∀ f ∈ st.table, f.is_customer_safe = false) :
    hybridSearch st (Except.ok emb) query options = Except.ok [] := by
  have hvfil : st.table.filter (hybridVectorWhere true options.channelId) = [] := by
    rw [List.filter_eq_nil_iff]
    intro f hf
    simp [hybridVectorWhere, htab f hf]
  have hkfil : st.table.filter (hybridKeywordWhere query st true options.channelId) = [] := by
    rw [List.filter_eq_nil_iff]
    intro f hf
    simp [hybridKeywordWhere, htab f hf]
  unfold hybridSearch runVectorQuery runKeywordQuery
  rw [hopt]
  simp only [Option.getD_some]
  rw [hvfil, hkfil]
  simp [reciprocalRankFusion, rrfSorted, rrfMerged, addVectorFrom, addKeywordFrom]

theorem searchKnowledge_unsafe_table (st : Store) (emb : List ℚ) (query : String)
    (options : SearchOptions) (hopt : options.customerSafeOnly = some true)
    (htab : ∀ f ∈ st.table, f.is_customer_safe = false) :
    searchKnowledge st (Except.ok emb) query options = Except.ok [] := by
  have hfil : st.table.filter (knowledgeWhere true (options.sourceOfTruthOnly.getD false)
      options.channelId) = [] := by
    rw [List.filter_eq_nil_iff]
    intro f hf
    simp [knowledgeWhere, htab f hf]
  unfold searchKnowledge
  rw [hopt]
  simp only [Option.getD_some]
  rw [hfil]
  simp

/-- C10: through the `/ask` route in customer mode, retrieval is issued with
`customerSafeOnly = true` pushed into the store queries, so every result
handed to `generateAnswerWithCitations` is already customer safe and the
policy-blocked branch is unreachable; with no customer-safe rows in the
store at all, the route answers with the insufficient-information message,
never the internal-only one. -/
theorem C10_route_customer_safety (st : Store) (embedResult : Except String (List ℚ))
    (body : AskBody) (relevanceCheck rawAnswer : String)
    (hmode : body.mode = some Mode.customer) :
    (∀ results, askRouteResults st embedResult body = Except.ok results →
      (∀ r ∈ results, r.is_customer_safe = true) ∧
      (∀ rc, answerBranch results Mode.customer rc ≠ AnswerOutcome.policyBlocked)) ∧
    ((∀ f ∈ st.table, f.is_customer_safe = false) →
      ∀ emb, embedResult = Except.ok emb → body.question ≠ "" →
      askRouteAnswer st embedResult body relevanceCheck rawAnswer =
        Except.ok { answer := insufficientInfoMessage
                    citations := []
                    mode := Mode.customer
                    canCiteForCustomer := false }) := by
  refine ⟨?_, ?_⟩
  · intro results hres
    unfold askRouteResults at hres
    rw [hmode] at hres
    by_cases hq : (body.question == "") = true
    · rw [if_pos hq] at hres
      exact absurd hres (by simp)
    · rw [if_neg hq] at hres
      simp only [Option.getD_some] at hres
      have hsafe : ∀ r ∈ results, r.is_customer_safe = true := by
        by_cases hu : (body.useHybrid.getD true) = true
        · rw [if_pos hu] at hres
          cases embedResult with
          | error e => simp [hybridSearch] at hres
          | ok emb => exact hybridSearch_safe st emb body.question _ (by simp) results hres
        · rw [if_neg hu] at hres
          cases embedResult with
          | error e => simp [searchKnowledge] at hres
          | ok emb => exact searchKnowledge_safe st emb body.question _ (by simp) results hres
      exact ⟨hsafe, fun rc => answerBranch_not_policyBlocked results rc hsafe⟩
  · intro htab emb hemb hq
    subst hemb
    unfold askRouteAnswer
    have hres : askRouteResults st (Except.ok emb) body = Except.ok [] := by
      unfold askRouteResults
      rw [hmode]
      rw [if_neg (by simpa using hq)]
      simp only [Option.getD_some]
      by_cases hu : (body.useHybrid.getD true) = true
      · rw [if_pos hu]
        exact hybridSearch_unsafe_table st emb body.question _ (by simp) htab
      · rw [if_neg hu]
        exact searchKnowledge_unsafe_table st emb body.question _ (by simp) htab
    rw [hres, hmode]
    rfl

/-- Closed instance of `C10_route_customer_safety` at a concrete store whose
single fragment is internal-only. -/
theorem C10_route_customer_safety_witness :
    (({ question := "q", mode := some Mode.customer } : AskBody).mode
        = some Mode.customer) ∧
    ((∀ results, askRouteResults sampleStore (Except.ok [])
        { question := "q", mode := some Mode.customer } = Except.ok results →
      (∀ r ∈ results, r.is_customer_safe = true) ∧
      (∀ rc, answerBranch results Mode.customer rc ≠ AnswerOutcome.policyBlocked)) ∧
    ((∀ f ∈ sampleStore.table, f.is_customer_safe = false) →
      ∀ emb, (Except.ok [] : Except String (List ℚ)) = Except.ok emb →
      ({ question := "q", mode := some Mode.customer } : AskBody).question ≠ "" →
      askRouteAnswer sampleStore (Except.ok [])
          { question := "q", mode := some Mode.customer } "YES" "x" =
        Except.ok { answer := insufficientInfoMessage
                    citations := []
                    mode := Mode.customer
                    canCiteForCustomer := false })) :=
  ⟨rfl,
    C10_route_customer_safety sampleStore (Except.ok [])
      { question := "q", mode := some Mode.customer } "YES" "x" rfl⟩
